import Mathlib

/-!
# Verification of the Family-Feud game engine

A shallow embedding of the round/turn state machine, the fuzzy answer
matcher, the question deck and the persistence sanitization layer of the
`family-feud` repository, together with proofs settling the frozen claims.

Strings are modelled as `List Char` (the game data is ASCII; the NFD
diacritic-stripping step of `normalizeAnswer` is the identity on ASCII).
JavaScript numbers are modelled as `Int` (all numeric fields hold integers;
`Math.floor` is the identity, and `NaN`/non-integer floats are outside the
model).  Fractional values appear only in the similarity threshold of
`looselyMatches`, modelled exactly with `ℚ` (for integer distance `d` and
length `m`, the double computation `1 - d/m >= 0.6` agrees with the exact
rational comparison: the only rational value within double rounding error
of 3/5 that `1 - d/m` can take is 3/5 itself, and `1 - double(2/5)` rounds
to exactly `double(0.6)`).
-/

namespace FamilyFeud

/-- Strings as lists of characters. -/
abbrev Str := List Char

/-! ## `src/lib/utils.ts` -/

/-- `normalizeAnswer`: strip diacritics (identity on ASCII), drop every
character that is not an ASCII letter or digit, lowercase the rest. -/
def normalizeAnswer (value : Str) : Str :=
  (value.filter (fun c => c.isAlpha || c.isDigit)).map Char.toLower

/-- Loop of `isSubsequence`: walk the haystack, advancing a cursor through
the needle; succeed the moment the cursor reaches the end of the needle. -/
def isSubsequenceGo : Str → Str → Bool
  | _, [] => false
  | needle, c :: haystack =>
    match needle with
    | [] => false
    | n :: ns =>
      if c = n then
        if ns = [] then true else isSubsequenceGo ns haystack
      else isSubsequenceGo (n :: ns) haystack

/-- `isSubsequence(needle, haystack)`: empty needle never matches; otherwise
the characters of the needle appear in order (not necessarily contiguously)
in the haystack. -/
def isSubsequence (needle haystack : Str) : Bool :=
  if needle = [] then false else isSubsequenceGo needle haystack

/-- Inner loop of one row of the Levenshtein DP matrix: given the remaining
characters of `b`, the remaining previous row, the diagonal value and the
value to the left, produce the rest of the new row. -/
def levRowGo (x : Char) : Str → List Nat → Nat → Nat → List Nat
  | [], _, _, _ => []
  | _, [], _, _ => []
  | y :: ys, p :: ps, diag, left =>
    let v := min (p + 1) (min (left + 1) (diag + (if x = y then 0 else 1)))
    v :: levRowGo x ys ps p v

/-- One row of the Levenshtein DP matrix (`matrix[i][j]` for fixed `i`),
computed from the previous row. -/
def levRow (x : Char) (b : Str) (prev : List Nat) : List Nat :=
  let first := prev.headD 0 + 1
  first :: levRowGo x b prev.tail (prev.headD 0) first

/-- `levenshteinDistance`: the dynamic-programming edit distance of the
source, computed row by row; `matrix[0]` is `0,1,…,|b|` and the result is
the last entry of the final row. -/
def levenshteinDistance (a b : Str) : Nat :=
  if a = b then 0
  else if a.length = 0 then b.length
  else if b.length = 0 then a.length
  else
    (a.foldl (fun prev x => levRow x b prev) (List.range (b.length + 1))).getLastD 0

/-- `looselyMatches`: decision procedure for whether two normalized strings
count as the same answer.  Mirrors the rule order of the source. -/
def looselyMatches (normalizedA normalizedB : Str) : Bool :=
  if normalizedA.length = 0 || normalizedB.length = 0 then false
  else if normalizedA = normalizedB then true
  else
    let shorter := if normalizedA.length ≤ normalizedB.length then normalizedA else normalizedB
    let longer := if shorter = normalizedA then normalizedB else normalizedA
    if decide (shorter <:+: longer) then true
    else
      let shorterLength := shorter.length
      if shorterLength ≤ 2 && isSubsequence shorter longer then true
      else if shorterLength = 3 && isSubsequence shorter longer
          && levenshteinDistance shorter longer ≤ 2 then true
      else
        let distance := levenshteinDistance normalizedA normalizedB
        let maxLength := max normalizedA.length normalizedB.length
        if maxLength = 0 then false
        else decide ((1 : ℚ) - (distance : ℚ) / (maxLength : ℚ) ≥ (0.6 : ℚ))

/-- `looselyMatches` with the final similarity rule rewritten over `ℕ`
(`1 - d/m ≥ 3/5  ↔  5·d ≤ 2·m` for `m > 0`); every other rule is verbatim
the same.  Used to evaluate the matcher on concrete inputs, justified by
`looselyMatches_eq_calc`. -/
def looselyMatchesCalc (normalizedA normalizedB : Str) : Bool :=
  if normalizedA.length = 0 || normalizedB.length = 0 then false
  else if normalizedA = normalizedB then true
  else
    let shorter := if normalizedA.length ≤ normalizedB.length then normalizedA else normalizedB
    let longer := if shorter = normalizedA then normalizedB else normalizedA
    if decide (shorter <:+: longer) then true
    else
      let shorterLength := shorter.length
      if shorterLength ≤ 2 && isSubsequence shorter longer then true
      else if shorterLength = 3 && isSubsequence shorter longer
          && levenshteinDistance shorter longer ≤ 2 then true
      else
        let distance := levenshteinDistance normalizedA normalizedB
        let maxLength := max normalizedA.length normalizedB.length
        if maxLength = 0 then false
        else decide (5 * distance ≤ 2 * maxLength)

/-! ## Data model (`src/types/game.ts`, `src/components/game-context.tsx`) -/

/-- One canonical answer of a question. -/
structure Answer where
  text : Str
  points : Int
deriving Repr, DecidableEq

/-- A question with its ordered canonical answers. -/
structure Question where
  question : Str
  answers : List Answer
deriving Repr, DecidableEq

/-- One of the two teams. -/
structure Team where
  name : Str
  color : Str
  score : Int
deriving Repr, DecidableEq

/-- The game phases. -/
inductive GamePhase where
  | setup
  | playing
  | steal
  | results
deriving Repr, DecidableEq

/-- Per-question mutable round state. -/
structure RoundState where
  strikes : Int
  revealed : List Bool
  roundPot : Int
deriving Repr, DecidableEq

/-- Per-answer snapshot inside a history entry. -/
structure HistAnswer where
  text : Str
  points : Int
  revealed : Bool
deriving Repr, DecidableEq

/-- Audit record written when a round finalizes. -/
structure RoundHistoryEntry where
  question : Str
  answers : List HistAnswer
  strikes : Int
  winningTeam : Option Nat
  awardedPoints : Int
  occurredAt : Int
deriving Repr, DecidableEq

/-- `InternalState = GameState & { stealOriginalTeamIndex?: 0|1 }`.
Team indices are `Nat`, always `0` or `1` in sanitized states. -/
structure InternalState where
  teams : List Team
  activeTeamIndex : Nat
  phase : GamePhase
  currentQuestion : Option Question
  round : Option RoundState
  voiceEnabled : Bool
  roundWinner : Option Nat
  history : List RoundHistoryEntry
  stealOriginalTeamIndex : Option Nat
deriving Repr, DecidableEq

/-- Result of answer validation (local or via the external collaborator);
also the shape of the external validator oracle's reply. -/
structure ValidationResponse where
  matched : Bool
  matchedAnswer : Option Str := none
  confidence : Option ℚ := none
  points : Option Int := none
  timedOut : Option Bool := none
deriving Repr, DecidableEq

/-- History cap (`MAX_HISTORY_ENTRIES`). -/
def MAX_HISTORY_ENTRIES : Nat := 50

/-- JavaScript `array.map((value, idx) => f(idx, value))`. -/
def mapWithIdxGo (f : Nat → α → β) : Nat → List α → List β
  | _, [] => []
  | i, x :: xs => f i x :: mapWithIdxGo f (i + 1) xs

/-- JavaScript `array.map` with the element index. -/
def mapWithIdx (f : Nat → α → β) (l : List α) : List β :=
  mapWithIdxGo f 0 l

/-- JavaScript `array.slice(-n)`: the last `n` elements. -/
def sliceLast (n : Nat) (l : List α) : List α :=
  l.drop (l.length - n)

/-- Score of team `i` (0 when the index is out of range). -/
def scoreOf (s : InternalState) (i : Nat) : Int :=
  ((s.teams[i]?).map Team.score).getD 0

/-- The default fresh state (`createDefaultState`). -/
def createDefaultState : InternalState where
  teams := [⟨"Team A".toList, "#ef4444".toList, 0⟩, ⟨"Team B".toList, "#3b82f6".toList, 0⟩]
  activeTeamIndex := 0
  phase := .setup
  currentQuestion := none
  round := none
  voiceEnabled := true
  roundWinner := none
  history := []
  stealOriginalTeamIndex := none

/-! ## Round finalization and the public operations -/

/-- `finalizeRound(snapshot, winner, revealedOverride?, awardedOverride?)`.
`now` stands for `Date.now()` at the moment the history entry is written. -/
def finalizeRound (now : Int) (snapshot : InternalState) (winner : Option Nat)
    (revealedOverride : Option (List Bool)) (awardedOverride : Option Int) : InternalState :=
  match snapshot.currentQuestion, snapshot.round with
  | some q, some r =>
    if r.roundPot = 0 ∧ snapshot.roundWinner ≠ none then snapshot
    else
      let revealed := revealedOverride.getD r.revealed
      let awardedPoints := match winner with
        | some _ => awardedOverride.getD r.roundPot
        | none => 0
      let teams := match winner with
        | some w =>
          mapWithIdx
            (fun idx team =>
              if idx = w then { team with score := team.score + awardedPoints } else team)
            snapshot.teams
        | none => snapshot.teams
      let historyEntry : RoundHistoryEntry :=
        { question := q.question
          answers := mapWithIdx
            (fun idx answer =>
              { text := answer.text, points := answer.points,
                revealed := revealed.getD idx false })
            q.answers
          strikes := r.strikes
          winningTeam := winner
          awardedPoints := awardedPoints
          occurredAt := now }
      { snapshot with
          teams := teams
          round := some { r with revealed := revealed, roundPot := 0 }
          roundWinner := winner
          history := sliceLast MAX_HISTORY_ENTRIES (snapshot.history ++ [historyEntry]) }
  | _, _ => snapshot

/-- `startGame(teamAName, teamBName)`: fresh state with the given names
(empty names fall back, via JavaScript falsiness of `""`). -/
def startGame (teamAName teamBName : Str) : InternalState where
  teams :=
    [⟨if teamAName = [] then "Team A".toList else teamAName, "#ef4444".toList, 0⟩,
     ⟨if teamBName = [] then "Team B".toList else teamBName, "#3b82f6".toList, 0⟩]
  activeTeamIndex := 0
  phase := .setup
  currentQuestion := none
  round := none
  voiceEnabled := true
  roundWinner := none
  history := []
  stealOriginalTeamIndex := none

/-- `setNextQuestion(question)`. -/
def setNextQuestion (s : InternalState) (question : Question) : InternalState :=
  let revealed := List.replicate question.answers.length false
  { s with
      currentQuestion := some question
      phase := .playing
      round := some { strikes := 0, revealed := revealed, roundPot := 0 }
      stealOriginalTeamIndex := none
      roundWinner := none }

/-- `revealAnswerByIndex(index)`. -/
def revealAnswerByIndex (s : InternalState) (index : Nat) : InternalState :=
  match s.round, s.currentQuestion with
  | some r, some q =>
    if r.revealed.getD index false then s
    else
      let points := ((q.answers.get? index).map Answer.points).getD 0
      let revealed := mapWithIdx (fun idx value => if idx = index then true else value) r.revealed
      { s with round := some { r with revealed := revealed, roundPot := r.roundPot + points } }
  | _, _ => s

/-- `registerStrike()`. -/
def registerStrike (s : InternalState) : InternalState :=
  match s.round with
  | none => s
  | some r =>
    let strikes := r.strikes + 1
    if 3 ≤ strikes then
      let originalTeam := s.activeTeamIndex
      let nextTeam := if originalTeam = 0 then 1 else 0
      { s with
          phase := .steal
          round := some { r with strikes := 3 }
          activeTeamIndex := nextTeam
          stealOriginalTeamIndex := some originalTeam }
    else { s with round := some { r with strikes := strikes } }

/-- `endRoundAdvance()`. -/
def endRoundAdvance (s : InternalState) : InternalState :=
  { s with
      activeTeamIndex := if s.activeTeamIndex = 0 then 1 else 0
      phase := .playing
      currentQuestion := none
      round := none
      stealOriginalTeamIndex := none
      roundWinner := none }

/-- `endGame()`. -/
def endGame (s : InternalState) : InternalState :=
  { s with phase := .results, currentQuestion := none, round := none }

/-- Shared resolution pipeline of `submitAnswer`/`submitSteal`: first try the
local matcher on every canonical answer; on a local miss consult the external
validator (`oracle` is the already-awaited `fetchValidation` result), whose
returned answer text is re-resolved locally.  Returns the resolved index (if
any), the `timedOut` flag when the oracle was consulted, and the oracle
confidence when its answer was re-resolved. -/
def resolveAnswerIdx (normalizedAnswers : List Str) (normalizedPlayer : Str)
    (oracle : ValidationResponse) : Option Nat × Option Bool × Option ℚ :=
  match normalizedAnswers.findIdx? (fun value => looselyMatches value normalizedPlayer) with
  | some idx => (some idx, none, none)
  | none =>
    let timedOut := oracle.timedOut
    if oracle.matched then
      match oracle.matchedAnswer with
      | some ma =>
        if ma = [] then (none, timedOut, none)
        else
          let normalizedResult := normalizeAnswer ma
          (normalizedAnswers.findIdx? (fun value => looselyMatches value normalizedResult),
            timedOut, oracle.confidence)
      | none => (none, timedOut, none)
    else (none, timedOut, none)

/-- `submitAnswer(playerAnswer)` in the single-writer model: the snapshot
read from `stateRef` and the state passed to `setState` coincide.  `oracle`
is the validator reply that `fetchValidation` would produce for this call. -/
def submitAnswer (now : Int) (s : InternalState) (playerAnswer : Str)
    (oracle : ValidationResponse) : ValidationResponse × InternalState :=
  match s.phase, s.currentQuestion, s.round with
  | .playing, some q, some r =>
    let answers := q.answers
    let normalizedAnswers := answers.map (fun a => normalizeAnswer a.text)
    let normalizedPlayer := normalizeAnswer playerAnswer
    if normalizedPlayer = [] then ({ matched := false }, registerStrike s)
    else
      match resolveAnswerIdx normalizedAnswers normalizedPlayer oracle with
      | (none, timedOut, _) => ({ matched := false, timedOut := timedOut }, registerStrike s)
      | (some idx, timedOut, confidence) =>
        if r.revealed.getD idx false then
          ({ matched := false, timedOut := timedOut }, registerStrike s)
        else
          let canonical := answers.getD idx ⟨[], 0⟩
          let nextRevealed := mapWithIdx (fun i flag => if i = idx then true else flag) r.revealed
          let willComplete := nextRevealed.all (fun b => b)
          let roundPot := r.roundPot + canonical.points
          let base : InternalState :=
            { s with round := some { r with revealed := nextRevealed, roundPot := roundPot } }
          let s' := if willComplete then
              finalizeRound now base (some s.activeTeamIndex) (some nextRevealed) (some roundPot)
            else base
          ({ matched := true, matchedAnswer := some canonical.text,
             confidence := some (confidence.getD 1), points := some canonical.points,
             timedOut := timedOut }, s')
  | _, _, _ => ({ matched := false }, s)

/-- `submitSteal(playerAnswer)`, same conventions as `submitAnswer`. -/
def submitSteal (now : Int) (s : InternalState) (playerAnswer : Str)
    (oracle : ValidationResponse) : ValidationResponse × InternalState :=
  match s.phase, s.currentQuestion, s.round with
  | .steal, some q, some r =>
    let answers := q.answers
    let normalizedAnswers := answers.map (fun a => normalizeAnswer a.text)
    let normalizedPlayer := normalizeAnswer playerAnswer
    let originalTeam := s.stealOriginalTeamIndex.getD (if s.activeTeamIndex = 0 then 1 else 0)
    let resolveFailedSteal : Option Bool → ValidationResponse × InternalState := fun timedOut =>
      let revealed := r.revealed.map (fun _ => true)
      ({ matched := false, timedOut := timedOut },
        finalizeRound now { s with round := some { r with revealed := revealed } }
          (some originalTeam) (some revealed) (some r.roundPot))
    if normalizedPlayer = [] then resolveFailedSteal none
    else
      match resolveAnswerIdx normalizedAnswers normalizedPlayer oracle with
      | (none, timedOut, _) => resolveFailedSteal timedOut
      | (some idx, timedOut, confidence) =>
        if r.revealed.getD idx false then resolveFailedSteal none
        else
          let canonical := answers.getD idx ⟨[], 0⟩
          let revealed := r.revealed.map (fun _ => true)
          let s' := finalizeRound now { s with round := some { r with revealed := revealed } }
            (some s.activeTeamIndex) (some revealed) (some r.roundPot)
          ({ matched := true, matchedAnswer := some canonical.text,
             confidence := some (confidence.getD 1), points := some canonical.points,
             timedOut := timedOut }, s')
  | _, _, _ => ({ matched := false }, s)

/-- Decision procedure as the specification words it, rule by rule, first
satisfied rule winning. -/
def looselyMatchesSpec (a b : Str) : Bool :=
  if a = [] ∨ b = [] then false
  else if a = b then true
  else
    let shorter := if a.length ≤ b.length then a else b
    let longer := if a.length ≤ b.length then b else a
    if shorter <:+: longer then true
    else if shorter.length ≤ 2 ∧ isSubsequence shorter longer = true then true
    else if shorter.length = 3 ∧ isSubsequence shorter longer = true ∧
        levenshteinDistance shorter longer ≤ 2 then true
    else decide ((1 : ℚ) - (levenshteinDistance a b : ℚ) / (max a.length b.length : ℚ) ≥ (0.6 : ℚ))


/-- The index (if any) that a steal/answer guess resolves to against the
current question's canonical answers, exactly as the submit pipeline
computes it. -/
def guessResolution (q : Question) (guess : Str) (oracle : ValidationResponse) : Option Nat :=
  (resolveAnswerIdx (q.answers.map (fun a => normalizeAnswer a.text))
    (normalizeAnswer guess) oracle).1


def exC3 : InternalState :=
  { createDefaultState with phase := .playing, round := some ⟨2, [false, true], 70⟩ }


def exC10 : InternalState :=
  { createDefaultState with
      phase := .steal
      activeTeamIndex := 1
      stealOriginalTeamIndex := some 0
      round := some ⟨3, [false, true], 70⟩ }


/-- Steal-phase example state: team 1 is stealing from team 0 with a pot of
40 and one unrevealed answer. -/
def exQ1 : Question :=
  ⟨"name a pet".toList, [⟨"dog".toList, 40⟩, ⟨"cat".toList, 30⟩]⟩

def exR1 : RoundState := ⟨3, [false, true], 40⟩

def exC1 : InternalState :=
  { createDefaultState with
      phase := .steal
      activeTeamIndex := 1
      stealOriginalTeamIndex := some 0
      currentQuestion := some exQ1
      round := some exR1 }

/-- Validator oracle that reports no match. -/
def exOracleFalse : ValidationResponse := { matched := false }

/-- For positive `m`, the rational similarity threshold of the source is the
integer comparison `5·d ≤ 2·m`. -/
lemma similarity_iff (d m : ℕ) (hm : 0 < m) :
    ((1 : ℚ) - (d : ℚ) / (m : ℚ) ≥ (0.6 : ℚ)) ↔ 5 * d ≤ 2 * m := by
  have hm' : (0 : ℚ) < (m : ℚ) := by exact_mod_cast hm
  rw [ge_iff_le, le_sub_comm, show (1 : ℚ) - 0.6 = 2 / 5 by norm_num,
    div_le_div_iff₀ hm' (by norm_num : (0 : ℚ) < 5)]
  constructor
  · intro h
    have h2 : ((5 * d : ℕ) : ℚ) ≤ ((2 * m : ℕ) : ℚ) := by push_cast; linarith
    exact_mod_cast h2
  · intro h
    have h2 : ((5 * d : ℕ) : ℚ) ≤ ((2 * m : ℕ) : ℚ) := by exact_mod_cast h
    push_cast at h2
    linarith

/-- The two spellings of the matcher agree everywhere. -/
lemma looselyMatches_eq_calc (a b : Str) :
    looselyMatches a b = looselyMatchesCalc a b := by
  unfold looselyMatches looselyMatchesCalc
  dsimp only
  split_ifs <;> first
    | rfl
    | (rename_i hmax; exact decide_eq_decide.mpr (similarity_iff _ _ (Nat.pos_of_ne_zero hmax)))

lemma looselyMatches_spec_eq (a b : Str) : looselyMatches a b = looselyMatchesSpec a b := by
  unfold looselyMatches looselyMatchesSpec
  by_cases h0 : a.length = 0 || b.length = 0
  · have h0' : a = [] ∨ b = [] := by
      simpa [List.length_eq_zero] using h0
    simp [h0, h0']
  · have h0' : ¬(a = [] ∨ b = []) := by
      simpa [List.length_eq_zero] using h0
    by_cases heq : a = b
    · simp [h0, h0', heq]
    · by_cases hlen : a.length ≤ b.length
      · have ha : a.length ≠ 0 := by
          intro h
          exact h0' (Or.inl (List.length_eq_zero.mp h))
        have hm : ¬(List.length a ⊔ List.length b = 0) := by omega
        simp only [h0, h0', heq, hlen, Bool.false_eq_true, if_false, if_true, if_neg, if_pos]
        refine if_congr (by simp) rfl ?_
        refine if_congr (by simp [Bool.and_eq_true]) rfl ?_
        refine if_congr (by simp [Bool.and_eq_true, and_assoc]) rfl ?_
        rw [if_neg hm, Nat.cast_max]
      · have ha : a.length ≠ 0 := by
          intro h
          exact h0' (Or.inl (List.length_eq_zero.mp h))
        have hm : ¬(List.length a ⊔ List.length b = 0) := by omega
        have hba : ¬(b = a) := fun h => heq h.symm
        simp only [h0, h0', heq, hlen, hba, Bool.false_eq_true, if_false, if_true, if_neg, if_pos]
        refine if_congr (by simp) rfl ?_
        refine if_congr (by simp [Bool.and_eq_true]) rfl ?_
        refine if_congr (by simp [Bool.and_eq_true, and_assoc]) rfl ?_
        rw [if_neg hm, Nat.cast_max]
/-- C4: for all pairs of normalized strings, `looselyMatches` is decided by
the specification's rule list in order, first satisfied rule winning; in
particular the empty string never matches and a one-letter string matches
itself. -/
theorem C4_looselyMatches_decision_order :
    (∀ a b : Str, looselyMatches a b = looselyMatchesSpec a b)
    ∧ looselyMatches [] "anything".toList = false
    ∧ looselyMatches ['a'] ['a'] = true := by
  refine ⟨looselyMatches_spec_eq, ?_, ?_⟩
  · rw [looselyMatches_eq_calc]
    decide
  · rw [looselyMatches_eq_calc]
    decide

/-! ## C3 and C10: `registerStrike` -/

/-- C3: applying `registerStrike` to a non-null round with `strikes = 2`
(the 3rd strike), for either starting `activeTeamIndex`: phase becomes
`steal`, the active team flips exactly once, `stealOriginalTeamIndex` is the
pre-flip team, strikes are capped at 3, and the pot, the revealed flags and
both team scores are unchanged. -/
theorem C3_registerStrike_third_strike (s : InternalState) (r : RoundState)
    (hr : s.round = some r) (hs : r.strikes = 2) :
    (registerStrike s).phase = .steal ∧
    (registerStrike s).activeTeamIndex = (if s.activeTeamIndex = 0 then 1 else 0) ∧
    (registerStrike s).stealOriginalTeamIndex = some s.activeTeamIndex ∧
    (registerStrike s).round = some { r with strikes := 3 } ∧
    (registerStrike s).teams = s.teams := by
  simp only [registerStrike, hr]
  rw [if_pos (by omega : (3 : Int) ≤ r.strikes + 1)]
  exact ⟨rfl, rfl, rfl, rfl, rfl⟩

theorem C3_registerStrike_third_strike_witness :
    exC3.round = some (⟨2, [false, true], 70⟩ : RoundState) ∧
    (⟨2, [false, true], 70⟩ : RoundState).strikes = 2 ∧
    ((registerStrike exC3).phase = .steal ∧
      (registerStrike exC3).activeTeamIndex = (if exC3.activeTeamIndex = 0 then 1 else 0) ∧
      (registerStrike exC3).stealOriginalTeamIndex = some exC3.activeTeamIndex ∧
      (registerStrike exC3).round =
        some { (⟨2, [false, true], 70⟩ : RoundState) with strikes := 3 } ∧
      (registerStrike exC3).teams = exC3.teams) :=
  ⟨rfl, rfl, C3_registerStrike_third_strike exC3 ⟨2, [false, true], 70⟩ rfl rfl⟩

/-- C10: an extra `registerStrike` while already in the steal phase (strikes
at 3) re-fires the steal branch: the active team flips again (back to the
original team when `stealOriginalTeamIndex` was the other team), the
stealing team is recorded as the new `stealOriginalTeamIndex`, and strikes
stay 3 — the roles of the two teams swap instead of the call being a no-op. -/
theorem C10_registerStrike_during_steal (s : InternalState) (r : RoundState) (t : Nat)
    (hphase : s.phase = .steal) (hr : s.round = some r) (hs : r.strikes = 3)
    (ht : s.stealOriginalTeamIndex = some t)
    (hflip : t = if s.activeTeamIndex = 0 then 1 else 0) :
    (registerStrike s).phase = .steal ∧
    (registerStrike s).activeTeamIndex = t ∧
    (registerStrike s).stealOriginalTeamIndex = some s.activeTeamIndex ∧
    (registerStrike s).round = some { r with strikes := 3 } ∧
    (registerStrike s).teams = s.teams := by
  simp only [registerStrike, hr]
  rw [if_pos (by omega : (3 : Int) ≤ r.strikes + 1)]
  exact ⟨rfl, hflip.symm ▸ rfl, rfl, rfl, rfl⟩

theorem C10_registerStrike_during_steal_witness :
    exC10.phase = .steal ∧
    exC10.round = some (⟨3, [false, true], 70⟩ : RoundState) ∧
    (⟨3, [false, true], 70⟩ : RoundState).strikes = 3 ∧
    exC10.stealOriginalTeamIndex = some 0 ∧
    (0 = if exC10.activeTeamIndex = 0 then 1 else 0) ∧
    ((registerStrike exC10).phase = .steal ∧
      (registerStrike exC10).activeTeamIndex = 0 ∧
      (registerStrike exC10).stealOriginalTeamIndex = some exC10.activeTeamIndex ∧
      (registerStrike exC10).round =
        some { (⟨3, [false, true], 70⟩ : RoundState) with strikes := 3 } ∧
      (registerStrike exC10).teams = exC10.teams) :=
  ⟨rfl, rfl, rfl, rfl, by decide,
    C10_registerStrike_during_steal exC10 ⟨3, [false, true], 70⟩ 0 rfl rfl rfl rfl (by decide)⟩


/-- Counterexample state for C2: phase `playing` with a stale non-null
`roundWinner` and a single zero-point answer — the `finalizeRound` guard
(`roundPot === 0 && roundWinner !== null`) then skips finalization. -/
def exQ2 : Question := ⟨"q".toList, [⟨"dog".toList, 0⟩]⟩

def exC2 : InternalState :=
  { createDefaultState with
      phase := .playing
      roundWinner := some 0
      currentQuestion := some exQ2
      round := some ⟨0, [false], 0⟩ }

/-- Well-behaved variant for the amended C2: `roundWinner` is null. -/
def exQ2w : Question := ⟨"q".toList, [⟨"dog".toList, 40⟩]⟩

def exC2w : InternalState :=
  { createDefaultState with
      phase := .playing
      currentQuestion := some exQ2w
      round := some ⟨0, [false], 0⟩ }

/-- Steal-phase state with an empty pot for C5. -/
def exC5 : InternalState :=
  { createDefaultState with
      phase := .steal
      activeTeamIndex := 0
      stealOriginalTeamIndex := some 1
      currentQuestion := some exQ2
      round := some ⟨3, [true], 0⟩ }


/-! ## Reachability and the pot invariant (C9) -/

/-- Sum of the points of the revealed answers (pairing answers with their
revealed flags positionally). -/
def revealedSumAux : List Answer → List Bool → Int
  | a :: as, b :: bs => (if b then a.points else 0) + revealedSumAux as bs
  | _, _ => 0

/-- The value of the revealed board of question `q`. -/
def revealedSum (q : Question) (revealed : List Bool) : Int :=
  revealedSumAux q.answers revealed

/-- The revealed flags match the question's answer count. -/
def RoundLenInv (s : InternalState) : Prop :=
  ∀ q r, s.currentQuestion = some q → s.round = some r →
    r.revealed.length = q.answers.length

/-- The pot is exactly the value of the revealed board (while no round
winner has been recorded), and the flags match the answer count. -/
def PotInvariant (s : InternalState) : Prop :=
  ∀ q r, s.currentQuestion = some q → s.round = some r →
    r.revealed.length = q.answers.length ∧
    (s.roundWinner = none → r.roundPot = revealedSum q r.revealed)

/-- States reachable from some `setNextQuestion` call by the in-round
public operations. -/
inductive ReachableFromQuestion : InternalState → Prop where
  | base (s : InternalState) (q : Question) : ReachableFromQuestion (setNextQuestion s q)
  | stepAnswer (s : InternalState) (now : Int) (guess : Str) (oracle : ValidationResponse) :
      ReachableFromQuestion s → ReachableFromQuestion (submitAnswer now s guess oracle).2
  | stepSteal (s : InternalState) (now : Int) (guess : Str) (oracle : ValidationResponse) :
      ReachableFromQuestion s → ReachableFromQuestion (submitSteal now s guess oracle).2
  | stepReveal (s : InternalState) (idx : Nat) :
      ReachableFromQuestion s → ReachableFromQuestion (revealAnswerByIndex s idx)
  | stepStrike (s : InternalState) :
      ReachableFromQuestion s → ReachableFromQuestion (registerStrike s)


/-! ## JSON values and load-time sanitization
(`src/components/game-context.tsx` sanitizers, `src/lib/storage.ts`)

Persisted data is modelled as a JSON value tree: `JSON.parse` output.
Numbers are `Int` (ints are exact in doubles; `NaN`/fractions are outside
the model, so `Number.isFinite` checks hold and `Math.floor` is the
identity). -/

inductive JValue where
  | jnull
  | jbool (b : Bool)
  | jnum (n : Int)
  | jstr (s : Str)
  | jarr (elems : List JValue)
  | jobj (fields : List (Str × JValue))
deriving Repr

/-- JavaScript `x && typeof x === "object"` (arrays are objects; `null` is
excluded by truthiness). -/
def jIsObject : JValue → Bool
  | .jobj _ => true
  | .jarr _ => true
  | _ => false

/-- JavaScript truthiness. -/
def jTruthy : JValue → Bool
  | .jnull => false
  | .jbool b => b
  | .jnum n => decide (n ≠ 0)
  | .jstr s => decide (s ≠ [])
  | .jarr _ => true
  | .jobj _ => true

/-- Property access `obj.key`: `none` models `undefined`. -/
def jGet : JValue → Str → Option JValue
  | .jobj fields, key => (fields.find? (fun p => decide (p.1 = key))).map Prod.snd
  | _, _ => none

/-- Property access defaulting to `null` (for positions where the source
passes the raw value on, e.g. `payload.deck ?? null`, or guards with its own
object check). -/
def jGetD (j : JValue) (key : Str) : JValue :=
  (jGet j key).getD .jnull

/-- JavaScript `"key" in obj`. -/
def jHasField : JValue → Str → Bool
  | .jobj fields, key => fields.any (fun p => decide (p.1 = key))
  | _, _ => false

/-- JavaScript `String.prototype.trim`. -/
def jsTrim (s : Str) : Str :=
  ((s.dropWhile Char.isWhitespace).reverse.dropWhile Char.isWhitespace).reverse

/-- `sanitizeTeam`. -/
def sanitizeTeam (team : JValue) (fallbackName fallbackColor : Str) : Team :=
  if ¬ jIsObject team then ⟨fallbackName, fallbackColor, 0⟩
  else
    { name := match jGet team "name".toList with
        | some (.jstr s) => if jsTrim s ≠ [] then s else fallbackName
        | _ => fallbackName
      color := match jGet team "color".toList with
        | some (.jstr s) => s
        | _ => fallbackColor
      score := match jGet team "score".toList with
        | some (.jnum n) => n
        | _ => 0 }

/-- `matchQuestion`: resolve a persisted question to a pool question by its
prompt text. -/
def matchQuestion (question : JValue) (pool : List Question) : Option Question :=
  if ¬ jIsObject question then none
  else match jGet question "question".toList with
    | some (.jstr qs) => pool.find? (fun p => decide (p.question = qs))
    | _ => none

/-- `sanitizeRound`.  The source checks `!round || typeof round !== "object"
|| !question` in one condition; the order of the (pure) checks is
immaterial. -/
def sanitizeRound (round : JValue) (question : Option Question) : Option RoundState :=
  match question with
  | none => none
  | some q =>
    if ¬ jIsObject round then none
    else match jGet round "revealed".toList, jGet round "roundPot".toList,
        jGet round "strikes".toList with
      | some (.jarr rev), some (.jnum pot), some (.jnum strikes) =>
        some { strikes := max 0 (min 3 strikes)
               revealed := mapWithIdx (fun idx _ => match rev.get? idx with
                 | some (.jbool b) => b
                 | _ => false) q.answers
               roundPot := max 0 pot }
      | _, _, _ => none

/-- The per-answer mapper inside `sanitizeHistoryEntry` (the `answers.map`
callback), named so the round-trip lemmas can refer to it. -/
def sanitizeHistAnswer (answer : JValue) : HistAnswer :=
  if ¬ jIsObject answer then ⟨[], 0, false⟩
  else
    { text := match jGet answer "text".toList with
        | some (.jstr t) => t
        | _ => []
      points := match jGet answer "points".toList with
        | some (.jnum p) => p
        | _ => 0
      revealed := match jGet answer "revealed".toList with
        | some (.jbool b) => b
        | _ => false }

/-- The `x === 0 || x === 1 ? x : null` pattern used for `winningTeam`,
`roundWinner` and `stealOriginalTeamIndex` fields. -/
def sanitizeOptIdx : Option JValue → Option Nat
  | some (.jnum 0) => some 0
  | some (.jnum 1) => some 1
  | _ => none

/-- `sanitizeHistoryEntry`; `now` models the `Date.now()` fallback for a
missing timestamp. -/
def sanitizeHistoryEntry (now : Int) (entry : JValue) : Option RoundHistoryEntry :=
  if ¬ jIsObject entry then none
  else match jGet entry "question".toList with
    | some (.jstr qs) =>
      some { question := qs
             answers := match jGet entry "answers".toList with
               | some (.jarr arr) => arr.map sanitizeHistAnswer
               | _ => []
             strikes := match jGet entry "strikes".toList with
               | some (.jnum n) => max 0 (min 3 n)
               | _ => 0
             winningTeam := sanitizeOptIdx (jGet entry "winningTeam".toList)
             awardedPoints := match jGet entry "awardedPoints".toList with
               | some (.jnum p) => max 0 p
               | _ => 0
             occurredAt := match jGet entry "occurredAt".toList with
               | some (.jnum t) => t
               | _ => now }
    | _ => none

/-- `sanitizeState`. -/
def sanitizeState (now : Int) (incoming : JValue) (pool : List Question) : InternalState :=
  if ¬ jIsObject incoming then createDefaultState
  else
    let matchedQuestion := matchQuestion (jGetD incoming "currentQuestion".toList) pool
    { teams := match jGet incoming "teams".toList with
        | some (.jarr ts) =>
          if ts.length = 2 then
            [sanitizeTeam (ts.getD 0 .jnull) "Team A".toList "#ef4444".toList,
             sanitizeTeam (ts.getD 1 .jnull) "Team B".toList "#3b82f6".toList]
          else createDefaultState.teams
        | _ => createDefaultState.teams
      activeTeamIndex := match jGet incoming "activeTeamIndex".toList with
        | some (.jnum 1) => 1
        | _ => 0
      phase := match jGet incoming "phase".toList with
        | some (.jstr p) =>
          if p = "playing".toList then .playing
          else if p = "steal".toList then .steal
          else if p = "results".toList then .results
          else createDefaultState.phase
        | _ => createDefaultState.phase
      currentQuestion := matchedQuestion
      round := sanitizeRound (jGetD incoming "round".toList) matchedQuestion
      voiceEnabled := match jGet incoming "voiceEnabled".toList with
        | some (.jbool b) => b
        | _ => createDefaultState.voiceEnabled
      roundWinner := sanitizeOptIdx (jGet incoming "roundWinner".toList)
      history := match jGet incoming "history".toList with
        | some (.jarr hs) => sliceLast MAX_HISTORY_ENTRIES
            (hs.filterMap (sanitizeHistoryEntry now))
        | _ => []
      stealOriginalTeamIndex := sanitizeOptIdx (jGet incoming "stealOriginalTeamIndex".toList) }

/-! ## Question deck (`createShuffledIndices`, `normalizeDeck`,
`drawNextQuestion`) -/

/-- `{ order, index }`; `order` holds JavaScript numbers (`Int`). -/
structure QuestionDeck where
  order : List Int
  index : Nat
deriving Repr, DecidableEq

/-- One Fisher-Yates swap
(`[indices[current], indices[random]] = [indices[random], indices[current]]`).
`Math.random() < 1` keeps both positions in range, so the fallback branch is
unreachable in the source. -/
def swapL (l : List Nat) (i j : Nat) : List Nat :=
  match l.get? i, l.get? j with
  | some a, some b => (l.set i b).set j a
  | _, _ => l

/-- The Fisher-Yates loop, `current` counting down to 1; `rand c` models
`Math.floor(Math.random() * (c + 1))` (so `rand c ≤ c`). -/
def fyAux (rand : Nat → Nat) : Nat → List Nat → List Nat
  | 0, l => l
  | c + 1, l => fyAux rand c (swapL l (c + 1) (rand (c + 1)))

/-- `createShuffledIndices`. -/
def createShuffledIndices (rand : Nat → Nat) (length : Nat) : List Nat :=
  match length with
  | 0 => []
  | n + 1 => fyAux rand n (List.range (n + 1))

/-- `createDefaultDeck`. -/
def createDefaultDeck (rand : Nat → Nat) (length : Nat) : QuestionDeck :=
  ⟨if length > 0 then (createShuffledIndices rand length).map (fun k : Nat => (k : Int)) else [], 0⟩

/-- The dedup-and-range filter loop of `normalizeDeck` (`seen` is always
exactly the set of values already pushed to `order`). -/
def deckFilterLoop (total : Nat) : List Int → List Int → List Int
  | [], acc => acc
  | v :: vs, acc =>
    if 0 ≤ v ∧ v < (total : Int) ∧ v ∉ acc then deckFilterLoop total vs (acc ++ [v])
    else deckFilterLoop total vs acc

/-- The second loop of `normalizeDeck`: append every index missing from the
filtered order. -/
def deckMissing (total : Nat) (order : List Int) : List Int :=
  (List.range total).filterMap
    (fun idx : Nat => if (idx : Int) ∈ order then none else some (idx : Int))

/-- Common tail of `normalizeDeck` after the order array and index have been
extracted. -/
def deckCore (rand : Nat → Nat) (order0 : List Int) (idx0 : Int) (total : Nat) :
    QuestionDeck :=
  let order1 := deckFilterLoop total order0 []
  let order := order1 ++ deckMissing total order1
  let index := min (max idx0 0) (order.length : Int)
  ⟨if 0 < order.length then order else (createDefaultDeck rand total).order, index.toNat⟩

/-- `normalizeDeck` on an in-memory deck (whose `order` is always an
array, so only `null` triggers the default-deck branch). -/
def normalizeDeck (rand : Nat → Nat) (deck : Option QuestionDeck) (total : Nat) :
    QuestionDeck :=
  if total = 0 then ⟨[], 0⟩
  else match deck with
    | none => createDefaultDeck rand total
    | some d => deckCore rand d.order (d.index : Int) total

/-- The `typeof value === "number"` filter applied to each entry of a
persisted `order` array. -/
def jNumEntry : JValue → Option Int
  | .jnum n => some n
  | _ => none

/-- `normalizeDeck` on a persisted JSON value: non-number entries of
`order` are skipped by the loop's `typeof value === "number"` check, and a
non-number `index` is modelled as the `?? 0` fallback. -/
def jNormalizeDeck (rand : Nat → Nat) (deck : JValue) (total : Nat) : QuestionDeck :=
  if total = 0 then ⟨[], 0⟩
  else if ¬ jTruthy deck then createDefaultDeck rand total
  else match jGet deck "order".toList with
    | some (.jarr vals) =>
      deckCore rand (vals.filterMap jNumEntry)
        (match jGet deck "index".toList with
          | some (.jnum n) => n
          | _ => 0) total
    | _ => createDefaultDeck rand total

/-- `drawNextQuestion` as a state transformer on the deck. -/
def drawNextQuestion (rand : Nat → Nat) (pool : List Question) (deck : QuestionDeck) :
    Option Question × QuestionDeck :=
  if pool.length = 0 then (none, deck)
  else
    let d1 := normalizeDeck rand (some deck) pool.length
    let d2 := if d1.order.length = 0 then createDefaultDeck rand pool.length else d1
    let d3 := if d2.order.length ≤ d2.index then createDefaultDeck rand pool.length else d2
    let deck2 : QuestionDeck := ⟨d3.order, d3.index + 1⟩
    match d3.order.get? d3.index with
    | some qi => ((if 0 ≤ qi then pool.get? qi.toNat else none), deck2)
    | none => (none, deck2)

/-- The first `k` results of successive `drawNextQuestion` calls. -/
def drawSeq (rand : Nat → Nat) (pool : List Question) :
    Nat → QuestionDeck → List (Option Question) × QuestionDeck
  | 0, deck => ([], deck)
  | k + 1, deck =>
    let (res, deck2) := drawNextQuestion rand pool deck
    let (rest, deck3) := drawSeq rand pool k deck2
    (res :: rest, deck3)

/-! ## Persistence adapter (`persist`, `readSnapshot`, `loadInitialSnapshot`) -/

def STORAGE_VERSION : Int := 1

def phaseStr : GamePhase → Str
  | .setup => "setup".toList
  | .playing => "playing".toList
  | .steal => "steal".toList
  | .results => "results".toList

def encodeTeam (t : Team) : JValue :=
  .jobj [("name".toList, .jstr t.name), ("color".toList, .jstr t.color),
    ("score".toList, .jnum t.score)]

def encodeAnswer (a : Answer) : JValue :=
  .jobj [("text".toList, .jstr a.text), ("points".toList, .jnum a.points)]

def encodeQuestion (q : Question) : JValue :=
  .jobj [("question".toList, .jstr q.question),
    ("answers".toList, .jarr (q.answers.map encodeAnswer))]

def encodeRound (r : RoundState) : JValue :=
  .jobj [("strikes".toList, .jnum r.strikes),
    ("revealed".toList, .jarr (r.revealed.map JValue.jbool)),
    ("roundPot".toList, .jnum r.roundPot)]

def encodeHistAnswer (a : HistAnswer) : JValue :=
  .jobj [("text".toList, .jstr a.text), ("points".toList, .jnum a.points),
    ("revealed".toList, .jbool a.revealed)]

/-- JSON serialization of an optional team index (`null` when absent). -/
def encodeOptIdx : Option Nat → JValue
  | some w => .jnum (w : Int)
  | none => .jnull

def encodeHistoryEntry (e : RoundHistoryEntry) : JValue :=
  .jobj [("question".toList, .jstr e.question),
    ("answers".toList, .jarr (e.answers.map encodeHistAnswer)),
    ("strikes".toList, .jnum e.strikes),
    ("winningTeam".toList, encodeOptIdx e.winningTeam),
    ("awardedPoints".toList, .jnum e.awardedPoints),
    ("occurredAt".toList, .jnum e.occurredAt)]

/-- `JSON.stringify` of an `InternalState`: an `undefined`
`stealOriginalTeamIndex` key is dropped entirely. -/
def encodeState (s : InternalState) : JValue :=
  .jobj ([("teams".toList, .jarr (s.teams.map encodeTeam)),
    ("activeTeamIndex".toList, .jnum (s.activeTeamIndex : Int)),
    ("phase".toList, .jstr (phaseStr s.phase)),
    ("currentQuestion".toList, match s.currentQuestion with
      | some q => encodeQuestion q
      | none => .jnull),
    ("round".toList, match s.round with
      | some r => encodeRound r
      | none => .jnull),
    ("voiceEnabled".toList, .jbool s.voiceEnabled),
    ("roundWinner".toList, encodeOptIdx s.roundWinner),
    ("history".toList, .jarr (s.history.map encodeHistoryEntry))] ++
    (match s.stealOriginalTeamIndex with
      | some t => [("stealOriginalTeamIndex".toList, JValue.jnum (t : Int))]
      | none => []))

def encodeDeck (d : QuestionDeck) : JValue :=
  .jobj [("order".toList, .jarr (d.order.map JValue.jnum)),
    ("index".toList, .jnum (d.index : Int))]

/-- The stored snapshot written by `persist` via `writeSnapshot`. -/
def persistSnapshot (now : Int) (s : InternalState) (d : QuestionDeck) : JValue :=
  .jobj [("version".toList, .jnum STORAGE_VERSION), ("timestamp".toList, .jnum now),
    ("payload".toList, .jobj [("state".toList, encodeState s),
      ("deck".toList, encodeDeck d)])]

/-- `readSnapshot`: parse result of the stored string (`none` = missing or
unparsable); validates the envelope shape. -/
def readSnapshot (store : Option JValue) : Option (Int × Int × JValue) :=
  match store with
  | none => none
  | some parsed =>
    if ¬ jIsObject parsed then none
    else match jGet parsed "version".toList, jGet parsed "timestamp".toList with
      | some (.jnum v), some (.jnum ts) =>
        if jHasField parsed "payload".toList then some (v, ts, jGetD parsed "payload".toList)
        else none
      | _, _ => none

/-- `loadInitialSnapshot`. -/
def loadInitialSnapshot (now : Int) (rand : Nat → Nat) (store : Option JValue)
    (pool : List Question) : Option (InternalState × QuestionDeck) :=
  match readSnapshot store with
  | none => none
  | some (version, _, payload) =>
    if version ≠ STORAGE_VERSION then none
    else if ¬ jIsObject payload then none
    else some (sanitizeState now (jGetD payload "state".toList) pool,
      jNormalizeDeck rand (jGetD payload "deck".toList) pool.length)

/-- The provider's initial state/deck:
`initialSnapshot?.state ?? createDefaultState()` and
`initialSnapshot?.deck ?? createDefaultDeck(pool.length)`. -/
def gameInitial (now : Int) (rand : Nat → Nat) (store : Option JValue)
    (pool : List Question) : InternalState × QuestionDeck :=
  match loadInitialSnapshot now rand store pool with
  | some p => p
  | none => (createDefaultState, createDefaultDeck rand pool.length)

/-! ## Well-formedness for the persistence round trip (C8) -/

/-- A game state the UI can actually produce, relative to the active pool:
two teams with displayable names, team indices 0/1, the current question
drawn from the pool (resolvable by its text), round fields in range and
sized to the question, and a capped, well-typed history. -/
def WFState (s : InternalState) (pool : List Question) : Prop :=
  s.teams.length = 2 ∧
  (∀ t ∈ s.teams, jsTrim t.name ≠ []) ∧
  s.activeTeamIndex ≤ 1 ∧
  (∀ w, s.roundWinner = some w → w ≤ 1) ∧
  (∀ t, s.stealOriginalTeamIndex = some t → t ≤ 1) ∧
  (∀ q, s.currentQuestion = some q →
    pool.find? (fun p => decide (p.question = q.question)) = some q) ∧
  (∀ r, s.round = some r → ∃ q, s.currentQuestion = some q ∧
    r.revealed.length = q.answers.length ∧ 0 ≤ r.strikes ∧ r.strikes ≤ 3 ∧ 0 ≤ r.roundPot) ∧
  s.history.length ≤ MAX_HISTORY_ENTRIES ∧
  (∀ e ∈ s.history, 0 ≤ e.strikes ∧ e.strikes ≤ 3 ∧ 0 ≤ e.awardedPoints ∧
    (∀ w, e.winningTeam = some w → w ≤ 1))

/-- A deck over `total` questions: the order is a permutation of
`0,…,total-1` and the cursor is within bounds. -/
def WFDeck (d : QuestionDeck) (total : Nat) : Prop :=
  d.order.Perm ((List.range total).map (fun k : Nat => (k : Int))) ∧ d.index ≤ total

/-- nullness invariant of C6: `round` and `currentQuestion` are both null
or both non-null. -/
def NullInv (s : InternalState) : Prop :=
  s.round = none ↔ s.currentQuestion = none

instance (s : InternalState) : Decidable (NullInv s) := by
  unfold NullInv
  infer_instance

/-- Malformed persisted state for the C6 counterexample: a valid
`currentQuestion` (matching the pool) with a null `round`. -/
def exJbad : JValue :=
  .jobj [("currentQuestion".toList, .jobj [("question".toList, .jstr "q".toList)])]

/-- A full stored snapshot embedding `exJbad`. -/
def exStoreBad : JValue :=
  .jobj [("version".toList, .jnum 1), ("timestamp".toList, .jnum 0),
    ("payload".toList, .jobj [("state".toList, exJbad), ("deck".toList, .jnull)])]

/-- Example pool for the deck witness. -/
def exPool : List Question := [exQ1, exQ2w]

/-- Example finished-round history entry for the persistence witness. -/
def exH1 : RoundHistoryEntry :=
  ⟨"name a pet".toList, [⟨"dog".toList, 40, true⟩, ⟨"cat".toList, 30, false⟩],
    2, some 1, 40, 99⟩

/-- Well-formed mid-steal state (relative to `exPool`) with a nonempty
history, for the persistence round-trip witness. -/
def exC8s : InternalState :=
  { exC1 with history := [exH1], roundWinner := some 0 }

/-- Well-formed deck over the two-question pool. -/
def exC8d : QuestionDeck := ⟨[1, 0], 1⟩

/-- Stored snapshot with a wrong `version` for the mismatch witness. -/
def exC8badJ : JValue := .jobj [("version".toList, .jnum 2)]

/-! ## Lemmas and claim theorems -/

lemma mapWithIdxGo_getElem? (f : Nat → α → β) :
    ∀ (l : List α) (k i : Nat),
      (mapWithIdxGo f k l)[i]? = (l[i]?).map (fun a => f (k + i) a)
  | [], k, i => by cases i <;> rfl
  | x :: xs, k, 0 => by simp [mapWithIdxGo]
  | x :: xs, k, i + 1 => by
    simp only [mapWithIdxGo, List.getElem?_cons_succ, mapWithIdxGo_getElem? f xs (k + 1) i,
      Nat.succ_add, Nat.add_succ]

lemma mapWithIdx_getElem? (f : Nat → α → β) (l : List α) (i : Nat) :
    (mapWithIdx f l)[i]? = (l[i]?).map (f i) := by
  simp [mapWithIdx, mapWithIdxGo_getElem?]

lemma mapWithIdxGo_length (f : Nat → α → β) :
    ∀ (l : List α) (k : Nat), (mapWithIdxGo f k l).length = l.length
  | [], _ => rfl
  | x :: xs, k => by simp [mapWithIdxGo, mapWithIdxGo_length f xs (k + 1)]

lemma mapWithIdx_length (f : Nat → α → β) (l : List α) :
    (mapWithIdx f l).length = l.length :=
  mapWithIdxGo_length f l 0

lemma finalizeRound_round (now : Int) (snap : InternalState) (w : Option Nat)
    (rev : List Bool) (amt : Option Int) (q : Question) (r : RoundState)
    (hq : snap.currentQuestion = some q) (hr : snap.round = some r) :
    (finalizeRound now snap w (some rev) amt).round =
      some (if r.roundPot = 0 ∧ snap.roundWinner ≠ none then r
        else { r with revealed := rev, roundPot := 0 }) := by
  unfold finalizeRound
  rw [hq, hr]
  dsimp only
  split_ifs with hg
  · rw [hr]
  · rfl

lemma finalizeRound_roundWinner (now : Int) (snap : InternalState) (w : Option Nat)
    (rev : List Bool) (amt : Option Int) (q : Question) (r : RoundState)
    (hq : snap.currentQuestion = some q) (hr : snap.round = some r) :
    (finalizeRound now snap w (some rev) amt).roundWinner =
      if r.roundPot = 0 ∧ snap.roundWinner ≠ none then snap.roundWinner else w := by
  unfold finalizeRound
  rw [hq, hr]
  dsimp only
  split_ifs with hg
  · rfl
  · rfl

lemma finalizeRound_scoreOf (now : Int) (snap : InternalState) (w : Nat)
    (rev : List Bool) (amt : Int) (q : Question) (r : RoundState) (i : Nat)
    (hq : snap.currentQuestion = some q) (hr : snap.round = some r)
    (hi : i < snap.teams.length) :
    scoreOf (finalizeRound now snap (some w) (some rev) (some amt)) i =
      if r.roundPot = 0 ∧ snap.roundWinner ≠ none then scoreOf snap i
      else if i = w then scoreOf snap i + amt else scoreOf snap i := by
  unfold finalizeRound
  rw [hq, hr]
  have hget : snap.teams[i]? = some snap.teams[i] := List.getElem?_eq_getElem hi
  dsimp only
  split_ifs with hg hiw
  · rfl
  · subst hiw
    simp [scoreOf, mapWithIdx_getElem?, hget]
  · simp [scoreOf, mapWithIdx_getElem?, hget, hiw]

theorem C1_submitSteal_banks_pot (now : Int) (s : InternalState) (q : Question)
    (r : RoundState) (t : Nat) (guess : Str) (oracle : ValidationResponse)
    (hphase : s.phase = .steal) (hq : s.currentQuestion = some q) (hr : s.round = some r)
    (ht : s.stealOriginalTeamIndex = some t) (hne : t ≠ s.activeTeamIndex)
    (hta : s.activeTeamIndex < s.teams.length) (htt : t < s.teams.length) :
    ((submitSteal now s guess oracle).2.round).map RoundState.revealed =
      some (r.revealed.map (fun _ => true)) ∧
    (∀ i, normalizeAnswer guess ≠ [] →
      guessResolution q guess oracle = some i →
      r.revealed.getD i false = false →
      scoreOf (submitSteal now s guess oracle).2 s.activeTeamIndex
          = scoreOf s s.activeTeamIndex + r.roundPot ∧
        scoreOf (submitSteal now s guess oracle).2 t = scoreOf s t) ∧
    ((normalizeAnswer guess = [] ∨
        guessResolution q guess oracle = none ∨
        (∃ i, guessResolution q guess oracle = some i ∧ r.revealed.getD i false = true)) →
      scoreOf (submitSteal now s guess oracle).2 t = scoreOf s t + r.roundPot ∧
        scoreOf (submitSteal now s guess oracle).2 s.activeTeamIndex
          = scoreOf s s.activeTeamIndex) := by
  have horig : s.stealOriginalTeamIndex.getD (if s.activeTeamIndex = 0 then 1 else 0) = t := by
    rw [ht]
    rfl
  set rv := r.revealed.map (fun _ => true) with hrv
  set snapF : InternalState := { s with round := some { r with revealed := rv } } with hsnapF
  have hFround : ∀ w : Nat,
      ((finalizeRound now snapF (some w) (some rv) (some r.roundPot)).round).map
        RoundState.revealed = some rv := by
    intro w
    rw [finalizeRound_round now snapF (some w) rv (some r.roundPot) q
      { r with revealed := rv } hq rfl]
    split_ifs <;> rfl
  have hFscore : ∀ (w i : Nat), i < s.teams.length →
      scoreOf (finalizeRound now snapF (some w) (some rv) (some r.roundPot)) i =
        if r.roundPot = 0 ∧ s.roundWinner ≠ none then scoreOf s i
        else if i = w then scoreOf s i + r.roundPot else scoreOf s i := by
    intro w i hi
    have h := finalizeRound_scoreOf now snapF w rv r.roundPot q
      { r with revealed := rv } i hq rfl hi
    simpa using h
  have hFail_t : scoreOf (finalizeRound now snapF (some t) (some rv) (some r.roundPot)) t =
      scoreOf s t + r.roundPot := by
    rw [hFscore t t htt]
    split_ifs with hg hw
    · rw [hg.1, add_zero]
    · rfl
    · exact absurd rfl hw
  have hFail_a : scoreOf (finalizeRound now snapF (some t) (some rv) (some r.roundPot))
      s.activeTeamIndex = scoreOf s s.activeTeamIndex := by
    rw [hFscore t s.activeTeamIndex hta]
    split_ifs with hg hw
    · rfl
    · exact absurd hw.symm hne
    · rfl
  have hWin_a : scoreOf (finalizeRound now snapF (some s.activeTeamIndex) (some rv)
      (some r.roundPot)) s.activeTeamIndex = scoreOf s s.activeTeamIndex + r.roundPot := by
    rw [hFscore s.activeTeamIndex s.activeTeamIndex hta]
    split_ifs with hg hw
    · rw [hg.1, add_zero]
    · rfl
    · exact absurd rfl hw
  have hWin_t : scoreOf (finalizeRound now snapF (some s.activeTeamIndex) (some rv)
      (some r.roundPot)) t = scoreOf s t := by
    rw [hFscore s.activeTeamIndex t htt]
    split_ifs <;> rfl
  by_cases hemp : normalizeAnswer guess = []
  · have heq : (submitSteal now s guess oracle).2 =
        finalizeRound now snapF (some t) (some rv) (some r.roundPot) := by
      simp only [submitSteal, hphase, hq, hr]
      rw [if_pos hemp, horig]
      simp only [hsnapF, hphase, hq]
    refine ⟨?_, ?_, ?_⟩
    · rw [heq]
      exact hFround t
    · intro i hne' _ _
      exact absurd hemp hne'
    · intro _
      rw [heq]
      exact ⟨hFail_t, hFail_a⟩
  · rcases hresolve : resolveAnswerIdx (q.answers.map (fun a => normalizeAnswer a.text))
        (normalizeAnswer guess) oracle with ⟨oidx, oto, oconf⟩
    have hgr : guessResolution q guess oracle = oidx := by
      rw [guessResolution, hresolve]
    cases oidx with
    | none =>
      have heq : (submitSteal now s guess oracle).2 =
          finalizeRound now snapF (some t) (some rv) (some r.roundPot) := by
        simp only [submitSteal, hphase, hq, hr]
        rw [if_neg hemp, hresolve]
        dsimp only
        rw [horig]
        simp only [hsnapF, hphase, hq]
      refine ⟨?_, ?_, ?_⟩
      · rw [heq]
        exact hFround t
      · intro i _ hsome _
        rw [hgr] at hsome
        cases hsome
      · intro _
        rw [heq]
        exact ⟨hFail_t, hFail_a⟩
    | some idx =>
      by_cases hrevd : r.revealed.getD idx false
      · have heq : (submitSteal now s guess oracle).2 =
            finalizeRound now snapF (some t) (some rv) (some r.roundPot) := by
          simp only [submitSteal, hphase, hq, hr]
          rw [if_neg hemp, hresolve]
          dsimp only
          rw [if_pos hrevd, horig]
          simp only [hsnapF, hphase, hq]
        refine ⟨?_, ?_, ?_⟩
        · rw [heq]
          exact hFround t
        · intro i _ hsome hfalse
          rw [hgr] at hsome
          cases hsome
          rw [hrevd] at hfalse
          cases hfalse
        · intro _
          rw [heq]
          exact ⟨hFail_t, hFail_a⟩
      · have heq : (submitSteal now s guess oracle).2 =
            finalizeRound now snapF (some s.activeTeamIndex) (some rv) (some r.roundPot) := by
          simp only [submitSteal, hphase, hq, hr]
          rw [if_neg hemp, hresolve]
          dsimp only
          rw [if_neg hrevd]
          simp only [hsnapF, hphase, hq]
        refine ⟨?_, ?_, ?_⟩
        · rw [heq]
          exact hFround s.activeTeamIndex
        · intro i _ _ _
          rw [heq]
          exact ⟨hWin_a, hWin_t⟩
        · intro hdisj
          rcases hdisj with h | h | ⟨i, hi1, hi2⟩
          · exact absurd h hemp
          · rw [hgr] at h
            cases h
          · rw [hgr] at hi1
            cases hi1
            exact absurd hi2 hrevd

lemma points_getD_eq (answers : List Answer) (idx : Nat) :
    ((answers.get? idx).map Answer.points).getD 0 = (answers.getD idx ⟨[], 0⟩).points := by
  rw [List.getD_eq_getElem?_getD, ← List.get?_eq_getElem?]
  cases h : answers.get? idx <;> simp [h]

lemma mapWithIdxGo_ite_set (idx : Nat) :
    ∀ (l : List Bool) (k : Nat),
      mapWithIdxGo (fun i v => if i = idx then true else v) k l =
        if k ≤ idx then l.set (idx - k) true else l
  | [], k => by simp [mapWithIdxGo]
  | b :: bs, k => by
    simp only [mapWithIdxGo, mapWithIdxGo_ite_set idx bs (k + 1)]
    rcases Nat.lt_trichotomy k idx with hlt | heq | hgt
    · rw [if_neg (by omega : ¬k = idx), if_pos (by omega : k + 1 ≤ idx),
        if_pos (by omega : k ≤ idx)]
      have hsub : idx - k = (idx - (k + 1)) + 1 := by omega
      rw [hsub, List.set_cons_succ]
    · subst heq
      rw [if_pos rfl, if_neg (by omega : ¬k + 1 ≤ k), if_pos (le_refl k), Nat.sub_self,
        List.set_cons_zero]
    · rw [if_neg (by omega : ¬k = idx), if_neg (by omega : ¬k + 1 ≤ idx),
        if_neg (by omega : ¬k ≤ idx)]

lemma mapWithIdx_ite_eq_set (idx : Nat) (l : List Bool) :
    mapWithIdx (fun i v => if i = idx then true else v) l = l.set idx true := by
  rw [mapWithIdx, mapWithIdxGo_ite_set, if_pos (Nat.zero_le idx), Nat.sub_zero]

lemma revealedSumAux_replicate : ∀ (answers : List Answer) (n : Nat),
    revealedSumAux answers (List.replicate n false) = 0
  | [], _ => rfl
  | _ :: _, 0 => rfl
  | a :: as, n + 1 => by
    simp [List.replicate, revealedSumAux, revealedSumAux_replicate as n]

lemma revealedSumAux_set_true :
    ∀ (answers : List Answer) (revealed : List Bool) (idx : Nat),
      revealed.length = answers.length → revealed.getD idx false = false →
      revealedSumAux answers (revealed.set idx true) =
        revealedSumAux answers revealed + (answers.getD idx ⟨[], 0⟩).points
  | [], revealed, idx, hlen, _ => by
    have : revealed = [] := List.eq_nil_of_length_eq_zero (by simpa using hlen)
    subst this
    simp [revealedSumAux, List.getD]
  | a :: as, [], idx, hlen, _ => by
    simp at hlen
  | a :: as, b :: bs, 0, hlen, hfalse => by
    have hb : b = false := by simpa [List.getD] using hfalse
    subst hb
    simp [revealedSumAux, List.set_cons_zero, List.getD]
    ring
  | a :: as, b :: bs, idx + 1, hlen, hfalse => by
    have hlen' : bs.length = as.length := by simpa using hlen
    have hfalse' : bs.getD idx false = false := by simpa [List.getD] using hfalse
    simp only [List.set_cons_succ, revealedSumAux,
      revealedSumAux_set_true as bs idx hlen' hfalse']
    have : (List.getD (a :: as) (idx + 1) ⟨[], 0⟩) = List.getD as idx ⟨[], 0⟩ := by
      simp [List.getD]
    rw [this, add_assoc]

lemma sliceLast_concat_getLast? (n : Nat) (hn : 1 ≤ n) (l : List α) (e : α) :
    (sliceLast n (l ++ [e])).getLast? = some e := by
  unfold sliceLast
  have hk : (l ++ [e]).length - n ≤ l.length := by
    simp [List.length_append]
    omega
  rw [List.drop_append_of_le_length hk]
  exact List.getLast?_concat _

lemma finalizeRound_history_getLast? (now : Int) (snap : InternalState) (w : Nat)
    (rev : List Bool) (amt : Int) (q : Question) (r : RoundState)
    (hq : snap.currentQuestion = some q) (hr : snap.round = some r)
    (hg : ¬(r.roundPot = 0 ∧ snap.roundWinner ≠ none)) :
    (finalizeRound now snap (some w) (some rev) (some amt)).history.getLast? = some
      { question := q.question
        answers := mapWithIdx
          (fun idx answer => ⟨answer.text, answer.points, rev.getD idx false⟩) q.answers
        strikes := r.strikes
        winningTeam := some w
        awardedPoints := amt
        occurredAt := now } := by
  unfold finalizeRound
  rw [hq, hr]
  dsimp only
  rw [if_neg hg]
  exact sliceLast_concat_getLast? MAX_HISTORY_ENTRIES (by decide) _ _

/-- C2 counterexample: in `exC2` (phase `playing`, stale `roundWinner = 0`,
single unrevealed zero-point answer, empty pot), submitting the matching
guess reveals the last unrevealed answer of the question, yet no history
entry is appended: `finalizeRound`'s zero-pot guard returns early. -/
theorem C2_submitAnswer_completion_counterexample :
    exC2.phase = .playing ∧
    (exC2.round).map RoundState.revealed = some [false] ∧
    (submitAnswer 0 exC2 "dog".toList exOracleFalse).1.matched = true ∧
    ((submitAnswer 0 exC2 "dog".toList exOracleFalse).2.round).map RoundState.revealed
      = some [true] ∧
    exC2.history = [] ∧
    (submitAnswer 0 exC2 "dog".toList exOracleFalse).2.history = [] := by
  decide

/-- C2 (amended): whenever a `submitAnswer` call in phase `playing` reveals
the last unrevealed answer, and the resulting pot is nonzero or
`roundWinner` is still null (so the `finalizeRound` zero-pot guard does not
fire), the same call finalizes the round: the full pot including the last
answer's points is banked to the active team, the pot is zeroed, and a
history entry with `winningTeam = activeTeamIndex` is appended. -/
theorem C2_submitAnswer_completion_finalizes (now : Int) (s : InternalState) (q : Question)
    (r : RoundState) (idx : Nat) (guess : Str) (oracle : ValidationResponse)
    (hphase : s.phase = .playing) (hq : s.currentQuestion = some q) (hr : s.round = some r)
    (hemp : normalizeAnswer guess ≠ [])
    (hres : guessResolution q guess oracle = some idx)
    (hunrev : r.revealed.getD idx false = false)
    (hcomplete : (mapWithIdx (fun i flag => if i = idx then true else flag) r.revealed).all
      (fun b => b) = true)
    (hguard : r.roundPot + (q.answers.getD idx ⟨[], 0⟩).points ≠ 0 ∨ s.roundWinner = none)
    (hta : s.activeTeamIndex < s.teams.length) :
    scoreOf (submitAnswer now s guess oracle).2 s.activeTeamIndex
        = scoreOf s s.activeTeamIndex + (r.roundPot + (q.answers.getD idx ⟨[], 0⟩).points) ∧
    ((submitAnswer now s guess oracle).2.round).map RoundState.roundPot = some 0 ∧
    ((submitAnswer now s guess oracle).2.round).map RoundState.revealed
        = some (mapWithIdx (fun i flag => if i = idx then true else flag) r.revealed) ∧
    (submitAnswer now s guess oracle).2.history.getLast? = some
      { question := q.question
        answers := mapWithIdx (fun i a =>
          ⟨a.text, a.points,
            (mapWithIdx (fun j flag => if j = idx then true else flag) r.revealed).getD i false⟩)
          q.answers
        strikes := r.strikes
        winningTeam := some s.activeTeamIndex
        awardedPoints := r.roundPot + (q.answers.getD idx ⟨[], 0⟩).points
        occurredAt := now } := by
  have hguard' : ¬(r.roundPot + (q.answers.getD idx ⟨[], 0⟩).points = 0 ∧
      s.roundWinner ≠ none) := by
    rcases hguard with h | h
    · exact fun hc => h hc.1
    · exact fun hc => hc.2 h
  rcases hfull : resolveAnswerIdx (q.answers.map (fun a => normalizeAnswer a.text))
      (normalizeAnswer guess) oracle with ⟨oidx, oto, oconf⟩
  have hoidx : oidx = some idx := by
    rw [guessResolution, hfull] at hres
    exact hres
  subst hoidx
  set nextRevealed := mapWithIdx (fun i flag => if i = idx then true else flag) r.revealed
    with hnext
  set newPot := r.roundPot + (q.answers.getD idx ⟨[], 0⟩).points with hpot
  set base : InternalState :=
    { s with round := some { r with revealed := nextRevealed, roundPot := newPot } } with hbase
  have heq : (submitAnswer now s guess oracle).2 =
      finalizeRound now base (some s.activeTeamIndex) (some nextRevealed) (some newPot) := by
    simp only [submitAnswer, hphase, hq, hr]
    rw [if_neg hemp, hfull]
    dsimp only
    rw [if_neg (by rw [hunrev]; exact Bool.false_ne_true), if_pos hcomplete]
    simp only [hbase, hphase, hq, hnext, hpot]
  rw [heq]
  refine ⟨?_, ?_, ?_, ?_⟩
  · have h := finalizeRound_scoreOf now base s.activeTeamIndex nextRevealed newPot q
      { r with revealed := nextRevealed, roundPot := newPot } s.activeTeamIndex hq rfl hta
    rw [h]
    split_ifs with hg hw
    · exact absurd ⟨hg.1, hg.2⟩ hguard'
    · rfl
    · exact absurd rfl hw
  · rw [finalizeRound_round now base (some s.activeTeamIndex) nextRevealed (some newPot) q
      { r with revealed := nextRevealed, roundPot := newPot } hq rfl]
    split_ifs with hg
    · exact absurd ⟨hg.1, hg.2⟩ hguard'
    · rfl
  · rw [finalizeRound_round now base (some s.activeTeamIndex) nextRevealed (some newPot) q
      { r with revealed := nextRevealed, roundPot := newPot } hq rfl]
    split_ifs with hg
    · exact absurd ⟨hg.1, hg.2⟩ hguard'
    · rfl
  · exact finalizeRound_history_getLast? now base s.activeTeamIndex nextRevealed newPot q
      { r with revealed := nextRevealed, roundPot := newPot } hq rfl
      (by exact fun hc => hguard' ⟨hc.1, hc.2⟩)

theorem C2_submitAnswer_completion_finalizes_witness :
    (exC2w.phase = .playing ∧ exC2w.currentQuestion = some exQ2w ∧
      exC2w.round = some (⟨0, [false], 0⟩ : RoundState) ∧
      normalizeAnswer "dog".toList ≠ [] ∧
      guessResolution exQ2w "dog".toList exOracleFalse = some 0 ∧
      (⟨0, [false], 0⟩ : RoundState).revealed.getD 0 false = false ∧
      (mapWithIdx (fun i flag => if i = 0 then true else flag)
        (⟨0, [false], 0⟩ : RoundState).revealed).all (fun b => b) = true ∧
      exC2w.roundWinner = none ∧
      exC2w.activeTeamIndex < exC2w.teams.length) ∧
    scoreOf (submitAnswer 7 exC2w "dog".toList exOracleFalse).2 exC2w.activeTeamIndex
        = scoreOf exC2w exC2w.activeTeamIndex +
          ((⟨0, [false], 0⟩ : RoundState).roundPot + (exQ2w.answers.getD 0 ⟨[], 0⟩).points) ∧
    ((submitAnswer 7 exC2w "dog".toList exOracleFalse).2.round).map RoundState.roundPot
        = some 0 ∧
    ((submitAnswer 7 exC2w "dog".toList exOracleFalse).2.round).map RoundState.revealed
        = some (mapWithIdx (fun i flag => if i = 0 then true else flag)
          (⟨0, [false], 0⟩ : RoundState).revealed) ∧
    (submitAnswer 7 exC2w "dog".toList exOracleFalse).2.history.getLast? = some
      { question := exQ2w.question
        answers := mapWithIdx (fun i a =>
          ⟨a.text, a.points,
            (mapWithIdx (fun j flag => if j = 0 then true else flag)
              (⟨0, [false], 0⟩ : RoundState).revealed).getD i false⟩) exQ2w.answers
        strikes := (⟨0, [false], 0⟩ : RoundState).strikes
        winningTeam := some exC2w.activeTeamIndex
        awardedPoints := (⟨0, [false], 0⟩ : RoundState).roundPot +
          (exQ2w.answers.getD 0 ⟨[], 0⟩).points
        occurredAt := 7 } :=
  ⟨⟨rfl, rfl, rfl, by decide, by decide, rfl, by decide, rfl, by decide⟩,
    C2_submitAnswer_completion_finalizes 7 exC2w exQ2w ⟨0, [false], 0⟩ 0 "dog".toList
      exOracleFalse rfl rfl rfl (by decide) (by decide) rfl (by decide) (Or.inr rfl)
      (by decide)⟩

lemma finalizeRound_currentQuestion (now : Int) (snap : InternalState) (w : Option Nat)
    (rev : Option (List Bool)) (amt : Option Int) :
    (finalizeRound now snap w rev amt).currentQuestion = snap.currentQuestion := by
  unfold finalizeRound
  rcases hq : snap.currentQuestion with _ | q
  · simp [hq]
  · rcases hr2 : snap.round with _ | r
    · simp [hq, hr2]
    · simp only [hq, hr2]
      split_ifs <;> simp [hq]

lemma finalizeRound_eq_self_of_none (now : Int) (snap : InternalState) (w : Option Nat)
    (rev : Option (List Bool)) (amt : Option Int)
    (h : snap.currentQuestion = none ∨ snap.round = none) :
    finalizeRound now snap w rev amt = snap := by
  unfold finalizeRound
  rcases hq : snap.currentQuestion with _ | q
  · simp [hq]
  · rcases hr2 : snap.round with _ | r
    · simp [hq, hr2]
    · rcases h with h | h
      · rw [hq] at h
        cases h
      · rw [hr2] at h
        cases h

lemma potInv_finalize (now : Int) (snap : InternalState) (w : Nat) (rev : List Bool)
    (amt : Option Int) (hlen : RoundLenInv snap)
    (hrev : ∀ q, snap.currentQuestion = some q → rev.length = q.answers.length) :
    PotInvariant (finalizeRound now snap (some w) (some rev) amt) := by
  intro q r hq hr
  rw [finalizeRound_currentQuestion] at hq
  rcases hsr : snap.round with _ | r0
  · rw [finalizeRound_eq_self_of_none now snap (some w) (some rev) amt (Or.inr hsr)] at hr
    rw [hsr] at hr
    cases hr
  · rw [finalizeRound_round now snap (some w) rev amt q r0 hq hsr] at hr
    have hwin := finalizeRound_roundWinner now snap (some w) rev amt q r0 hq hsr
    by_cases hg : r0.roundPot = 0 ∧ snap.roundWinner ≠ none
    · rw [if_pos hg] at hr
      injection hr with hr
      subst hr
      refine ⟨hlen q r0 hq hsr, ?_⟩
      intro hnone
      rw [hwin, if_pos hg] at hnone
      exact absurd hnone hg.2
    · rw [if_neg hg] at hr
      injection hr with hr
      subst hr
      refine ⟨hrev q hq, ?_⟩
      intro hnone
      rw [hwin, if_neg hg] at hnone
      cases hnone

lemma potInv_update (s : InternalState) (q0 : Question) (r0 : RoundState) (idx : Nat)
    (hsq : s.currentQuestion = some q0) (hsr : s.round = some r0)
    (h : PotInvariant s) (hfalse : r0.revealed.getD idx false = false) :
    PotInvariant { s with round := some { r0 with
      revealed := mapWithIdx (fun i v => if i = idx then true else v) r0.revealed
      roundPot := r0.roundPot + (q0.answers.getD idx ⟨[], 0⟩).points } } := by
  intro q r hq hr
  dsimp only at hq hr
  rw [hsq] at hq
  injection hq with hq
  subst hq
  injection hr with hr
  subst hr
  obtain ⟨hl, hp⟩ := h q0 r0 hsq hsr
  refine ⟨?_, ?_⟩
  · simpa [mapWithIdx_length] using hl
  · intro hnone
    dsimp only at hnone ⊢
    rw [mapWithIdx_ite_eq_set, revealedSum, revealedSumAux_set_true q0.answers r0.revealed idx
      hl hfalse, ← revealedSum, ← hp hnone]

lemma potInv_registerStrike (s : InternalState) (h : PotInvariant s) :
    PotInvariant (registerStrike s) := by
  unfold registerStrike
  rcases hsr : s.round with _ | r0
  · exact h
  · dsimp only
    by_cases h3 : (3 : Int) ≤ r0.strikes + 1
    · rw [if_pos h3]
      intro q r hq hr
      dsimp only at hq hr ⊢
      injection hr with hr
      subst hr
      obtain ⟨hl, hp⟩ := h q r0 hq hsr
      exact ⟨hl, fun hnone => hp hnone⟩
    · rw [if_neg h3]
      intro q r hq hr
      dsimp only at hq hr ⊢
      injection hr with hr
      subst hr
      obtain ⟨hl, hp⟩ := h q r0 hq hsr
      exact ⟨hl, fun hnone => hp hnone⟩

lemma potInv_revealAnswerByIndex (s : InternalState) (idx : Nat) (h : PotInvariant s) :
    PotInvariant (revealAnswerByIndex s idx) := by
  unfold revealAnswerByIndex
  rcases hsr : s.round with _ | r0
  · exact h
  · rcases hsq : s.currentQuestion with _ | q0
    · exact h
    · dsimp only
      split_ifs with hrev
      · exact h
      · rw [points_getD_eq]
        have hres := potInv_update s q0 r0 idx hsq hsr h (by simpa using hrev)
        rw [hsq] at hres
        exact hres

lemma potInv_submitAnswer (now : Int) (s : InternalState) (guess : Str)
    (oracle : ValidationResponse) (h : PotInvariant s) :
    PotInvariant (submitAnswer now s guess oracle).2 := by
  unfold submitAnswer
  rcases hp : s.phase with _ | _ | _ | _
  case setup => exact h
  case steal => exact h
  case results => exact h
  case playing =>
  rcases hq0 : s.currentQuestion with _ | q0
  · exact h
  rcases hr0 : s.round with _ | r0
  · exact h
  dsimp only
  by_cases hemp : normalizeAnswer guess = []
  · rw [if_pos hemp]
    exact potInv_registerStrike s h
  rw [if_neg hemp]
  rcases hres : resolveAnswerIdx (q0.answers.map (fun a => normalizeAnswer a.text))
      (normalizeAnswer guess) oracle with ⟨oidx, oto, oconf⟩
  rw [hres]
  cases oidx with
  | none => exact potInv_registerStrike s h
  | some idx =>
    dsimp only
    by_cases hrevd : r0.revealed.getD idx false = true
    · rw [if_pos hrevd]
      exact potInv_registerStrike s h
    rw [if_neg hrevd]
    dsimp only
    by_cases hcomp : ((mapWithIdx (fun i flag => if i = idx then true else flag)
        r0.revealed).all (fun b => b)) = true
    · rw [if_pos hcomp]
      apply potInv_finalize
      · intro q r hq' hr'
        dsimp only at hq' hr'
        injection hq' with hq'
        subst hq'
        injection hr' with hr'
        subst hr'
        simpa [mapWithIdx_length] using (h q0 r0 hq0 hr0).1
      · intro q hq'
        dsimp only at hq'
        injection hq' with hq'
        subst hq'
        simpa [mapWithIdx_length] using (h q0 r0 hq0 hr0).1
    · rw [if_neg hcomp]
      have hres2 := potInv_update s q0 r0 idx hq0 hr0 h
        (by simpa using hrevd)
      rw [hq0] at hres2
      exact hres2

lemma potInv_submitSteal (now : Int) (s : InternalState) (guess : Str)
    (oracle : ValidationResponse) (h : PotInvariant s) :
    PotInvariant (submitSteal now s guess oracle).2 := by
  unfold submitSteal
  rcases hp : s.phase with _ | _ | _ | _
  case setup => exact h
  case playing => exact h
  case results => exact h
  case steal =>
  rcases hq0 : s.currentQuestion with _ | q0
  · exact h
  rcases hr0 : s.round with _ | r0
  · exact h
  dsimp only
  have hfin : ∀ w : Nat,
      PotInvariant (finalizeRound now
        { s with
            currentQuestion := some q0
            phase := .steal
            round := some { r0 with revealed := r0.revealed.map (fun x => true) } }
        (some w) (some (r0.revealed.map (fun x => true))) (some r0.roundPot)) := by
    intro w
    apply potInv_finalize
    · intro q r hq' hr'
      dsimp only at hq' hr'
      injection hq' with hq'
      subst hq'
      injection hr' with hr'
      subst hr'
      simpa using (h q0 r0 hq0 hr0).1
    · intro q hq'
      dsimp only at hq'
      injection hq' with hq'
      subst hq'
      simpa using (h q0 r0 hq0 hr0).1
  by_cases hemp : normalizeAnswer guess = []
  · rw [if_pos hemp]
    exact hfin _
  rw [if_neg hemp]
  rcases hres : resolveAnswerIdx (q0.answers.map (fun a => normalizeAnswer a.text))
      (normalizeAnswer guess) oracle with ⟨oidx, oto, oconf⟩
  rw [hres]
  cases oidx with
  | none => exact hfin _
  | some idx =>
    dsimp only
    by_cases hrevd : r0.revealed.getD idx false = true
    · rw [if_pos hrevd]
      exact hfin _
    · rw [if_neg hrevd]
      exact hfin _

lemma submitSteal_failed_eq (now : Int) (s : InternalState) (q : Question) (r : RoundState)
    (t : Nat) (guess : Str) (oracle : ValidationResponse)
    (hphase : s.phase = .steal) (hq : s.currentQuestion = some q) (hr : s.round = some r)
    (ht : s.stealOriginalTeamIndex = some t)
    (hfail : normalizeAnswer guess = [] ∨
      guessResolution q guess oracle = none ∨
      (∃ i, guessResolution q guess oracle = some i ∧ r.revealed.getD i false = true)) :
    (submitSteal now s guess oracle).2 =
      finalizeRound now { s with round := some { r with revealed := r.revealed.map (fun x => true) } }
        (some t) (some (r.revealed.map (fun x => true))) (some r.roundPot) := by
  have horig : s.stealOriginalTeamIndex.getD (if s.activeTeamIndex = 0 then 1 else 0) = t := by
    rw [ht]
    rfl
  by_cases hemp : normalizeAnswer guess = []
  · simp only [submitSteal, hphase, hq, hr]
    rw [if_pos hemp, horig]
  · rcases hfull : resolveAnswerIdx (q.answers.map (fun a => normalizeAnswer a.text))
        (normalizeAnswer guess) oracle with ⟨oidx, oto, oconf⟩
    have hgr : guessResolution q guess oracle = oidx := by
      rw [guessResolution, hfull]
    cases oidx with
    | none =>
      simp only [submitSteal, hphase, hq, hr]
      rw [if_neg hemp, hfull]
      dsimp only
      rw [horig]
    | some idx =>
      have hrevd : r.revealed.getD idx false = true := by
        rcases hfail with h | h | ⟨i, hi1, hi2⟩
        · exact absurd h hemp
        · rw [hgr] at h
          cases h
        · rw [hgr] at hi1
          cases hi1
          exact hi2
      simp only [submitSteal, hphase, hq, hr]
      rw [if_neg hemp, hfull]
      dsimp only
      rw [if_pos hrevd, horig]

/-- C5 counterexample: in `exC5` (steal phase, empty pot, `roundWinner`
null, original team 1), an empty steal guess fails, and the resulting
`roundWinner` is team 1 — not null as the claim states. -/
theorem C5_failed_steal_empty_pot_counterexample :
    exC5.phase = .steal ∧
    (exC5.round).map RoundState.roundPot = some 0 ∧
    exC5.roundWinner = none ∧
    (submitSteal 0 exC5 [] exOracleFalse).1.matched = false ∧
    (submitSteal 0 exC5 [] exOracleFalse).2.roundWinner = some 1 := by
  decide

/-- C5 (amended): a steal resolved as failed while the pot is empty (and
`roundWinner` still null) banks 0 points — both team scores are unchanged —
but sets `roundWinner` to `stealOriginalTeamIndex`, not to null; after any
steal resolution `roundWinner` is non-null. -/
theorem C5_failed_steal_empty_pot (now : Int) (s : InternalState) (q : Question)
    (r : RoundState) (t : Nat) (guess : Str) (oracle : ValidationResponse)
    (hphase : s.phase = .steal) (hq : s.currentQuestion = some q) (hr : s.round = some r)
    (ht : s.stealOriginalTeamIndex = some t) (hpot : r.roundPot = 0)
    (hwin : s.roundWinner = none) (hne : t ≠ s.activeTeamIndex)
    (hta : s.activeTeamIndex < s.teams.length) (htt : t < s.teams.length)
    (hfail : normalizeAnswer guess = [] ∨
      guessResolution q guess oracle = none ∨
      (∃ i, guessResolution q guess oracle = some i ∧ r.revealed.getD i false = true)) :
    (submitSteal now s guess oracle).2.roundWinner = some t ∧
    scoreOf (submitSteal now s guess oracle).2 t = scoreOf s t ∧
    scoreOf (submitSteal now s guess oracle).2 s.activeTeamIndex
      = scoreOf s s.activeTeamIndex := by
  rw [submitSteal_failed_eq now s q r t guess oracle hphase hq hr ht hfail]
  set rv := r.revealed.map (fun x => true) with hrv
  set snapF : InternalState := { s with round := some { r with revealed := rv } } with hsnapF
  have hgf : ¬(({ r with revealed := rv } : RoundState).roundPot = 0 ∧
      snapF.roundWinner ≠ none) := by
    intro hc
    exact hc.2 hwin
  refine ⟨?_, ?_, ?_⟩
  · rw [finalizeRound_roundWinner now snapF (some t) rv (some r.roundPot) q
      { r with revealed := rv } hq rfl]
    rw [if_neg hgf]
  · have h := finalizeRound_scoreOf now snapF t rv r.roundPot q
      { r with revealed := rv } t hq rfl htt
    rw [h, if_neg hgf, if_pos rfl]
    show scoreOf s t + r.roundPot = scoreOf s t
    rw [hpot, add_zero]
  · have h := finalizeRound_scoreOf now snapF t rv r.roundPot q
      { r with revealed := rv } s.activeTeamIndex hq rfl hta
    rw [h, if_neg hgf, if_neg (fun hc => hne hc.symm)]
    rfl

theorem C5_failed_steal_empty_pot_witness :
    (exC5.phase = .steal ∧ exC5.currentQuestion = some exQ2 ∧
      exC5.round = some (⟨3, [true], 0⟩ : RoundState) ∧
      exC5.stealOriginalTeamIndex = some 1 ∧
      (⟨3, [true], 0⟩ : RoundState).roundPot = 0 ∧
      exC5.roundWinner = none ∧ 1 ≠ exC5.activeTeamIndex ∧
      exC5.activeTeamIndex < exC5.teams.length ∧ 1 < exC5.teams.length ∧
      normalizeAnswer [] = []) ∧
    (submitSteal 3 exC5 [] exOracleFalse).2.roundWinner = some 1 ∧
    scoreOf (submitSteal 3 exC5 [] exOracleFalse).2 1 = scoreOf exC5 1 ∧
    scoreOf (submitSteal 3 exC5 [] exOracleFalse).2 exC5.activeTeamIndex
      = scoreOf exC5 exC5.activeTeamIndex :=
  ⟨⟨rfl, rfl, rfl, rfl, rfl, rfl, by decide, by decide, by decide, rfl⟩,
    C5_failed_steal_empty_pot 3 exC5 exQ2 ⟨3, [true], 0⟩ 1 [] exOracleFalse rfl rfl rfl rfl
      rfl rfl (by decide) (by decide) (by decide) (Or.inl rfl)⟩

lemma potInv_setNextQuestion (s : InternalState) (q : Question) :
    PotInvariant (setNextQuestion s q) := by
  intro q' r' hq' hr'
  dsimp only [setNextQuestion] at hq' hr'
  injection hq' with hq'
  subst hq'
  injection hr' with hr'
  subst hr'
  refine ⟨by simp, ?_⟩
  intro _
  rw [revealedSum, revealedSumAux_replicate]

lemma potInv_reachable (s : InternalState) (h : ReachableFromQuestion s) :
    PotInvariant s := by
  induction h with
  | base s q => exact potInv_setNextQuestion s q
  | stepAnswer s now guess oracle _ ih => exact potInv_submitAnswer now s guess oracle ih
  | stepSteal s now guess oracle _ ih => exact potInv_submitSteal now s guess oracle ih
  | stepReveal s idx _ ih => exact potInv_revealAnswerByIndex s idx ih
  | stepStrike s _ ih => exact potInv_registerStrike s ih

/-- C9: in every state reachable from a `setNextQuestion` call by any
sequence of `submitAnswer`, `submitSteal`, `revealAnswerByIndex` and
`registerStrike`, while `round` is non-null and `roundWinner` is null the
pot equals exactly the summed points of the revealed answers of the current
question. -/
theorem C9_pot_equals_revealed_board (s : InternalState)
    (h : ReachableFromQuestion s) (q : Question) (r : RoundState)
    (hq : s.currentQuestion = some q) (hr : s.round = some r)
    (hw : s.roundWinner = none) :
    r.roundPot = revealedSum q r.revealed :=
  (potInv_reachable s h q r hq hr).2 hw

theorem C9_pot_equals_revealed_board_witness :
    ((revealAnswerByIndex (setNextQuestion createDefaultState exQ1) 0).currentQuestion
        = some exQ1 ∧
      (revealAnswerByIndex (setNextQuestion createDefaultState exQ1) 0).round
        = some (⟨0, [true, false], 40⟩ : RoundState) ∧
      (revealAnswerByIndex (setNextQuestion createDefaultState exQ1) 0).roundWinner = none) ∧
    (⟨0, [true, false], 40⟩ : RoundState).roundPot = revealedSum exQ1 [true, false] :=
  ⟨⟨by decide, by decide, by decide⟩,
    C9_pot_equals_revealed_board _
      (ReachableFromQuestion.stepReveal _ 0 (ReachableFromQuestion.base createDefaultState exQ1))
      exQ1 ⟨0, [true, false], 40⟩ (by decide) (by decide) (by decide)⟩

theorem C1_submitSteal_banks_pot_witness :
    (exC1.phase = .steal ∧ exC1.currentQuestion = some exQ1 ∧ exC1.round = some exR1 ∧
      exC1.stealOriginalTeamIndex = some 0 ∧ 0 ≠ exC1.activeTeamIndex ∧
      exC1.activeTeamIndex < exC1.teams.length ∧ 0 < exC1.teams.length ∧
      normalizeAnswer "dog".toList ≠ [] ∧
      guessResolution exQ1 "dog".toList exOracleFalse = some 0 ∧
      exR1.revealed.getD 0 false = false) ∧
    scoreOf (submitSteal 0 exC1 "dog".toList exOracleFalse).2 exC1.activeTeamIndex
        = scoreOf exC1 exC1.activeTeamIndex + exR1.roundPot ∧
      scoreOf (submitSteal 0 exC1 "dog".toList exOracleFalse).2 0 = scoreOf exC1 0 :=
  ⟨⟨rfl, rfl, rfl, rfl, by decide, by decide, by decide, by decide, by decide, rfl⟩,
    (C1_submitSteal_banks_pot 0 exC1 exQ1 exR1 0 "dog".toList exOracleFalse rfl rfl rfl rfl
        (by decide) (by decide) (by decide)).2.1 0 (by decide) (by decide) rfl⟩


lemma nullInv_finalize (now : Int) (snap : InternalState) (w : Option Nat)
    (rev : List Bool) (amt : Option Int) (q0 : Question) (r0 : RoundState)
    (hq : snap.currentQuestion = some q0) (hr : snap.round = some r0) :
    NullInv (finalizeRound now snap w (some rev) amt) := by
  unfold NullInv
  rw [finalizeRound_round now snap w rev amt q0 r0 hq hr, finalizeRound_currentQuestion, hq]
  simp

lemma nullInv_registerStrike (s : InternalState) (h : NullInv s) :
    NullInv (registerStrike s) := by
  unfold registerStrike
  rcases hsr : s.round with _ | r0
  · exact h
  · have hq : ¬s.currentQuestion = none := by
      intro hc
      rw [h.mpr hc] at hsr
      cases hsr
    dsimp only
    by_cases h3 : (3 : Int) ≤ r0.strikes + 1
    · rw [if_pos h3]
      simp [NullInv, hq]
    · rw [if_neg h3]
      simp [NullInv, hq]

lemma nullInv_revealAnswerByIndex (s : InternalState) (idx : Nat) (h : NullInv s) :
    NullInv (revealAnswerByIndex s idx) := by
  unfold revealAnswerByIndex
  rcases hsr : s.round with _ | r0
  · exact h
  · rcases hsq : s.currentQuestion with _ | q0
    · exact h
    · dsimp only
      split_ifs with hrev
      · exact h
      · simp [NullInv]

lemma nullInv_submitAnswer (now : Int) (s : InternalState) (guess : Str)
    (oracle : ValidationResponse) (h : NullInv s) :
    NullInv (submitAnswer now s guess oracle).2 := by
  unfold submitAnswer
  rcases hp : s.phase with _ | _ | _ | _
  case setup => exact h
  case steal => exact h
  case results => exact h
  case playing =>
  rcases hq0 : s.currentQuestion with _ | q0
  · exact h
  rcases hr0 : s.round with _ | r0
  · exact h
  dsimp only
  by_cases hemp : normalizeAnswer guess = []
  · rw [if_pos hemp]
    exact nullInv_registerStrike s h
  rw [if_neg hemp]
  rcases hres : resolveAnswerIdx (q0.answers.map (fun a => normalizeAnswer a.text))
      (normalizeAnswer guess) oracle with ⟨oidx, oto, oconf⟩
  rw [hres]
  cases oidx with
  | none => exact nullInv_registerStrike s h
  | some idx =>
    dsimp only
    by_cases hrevd : r0.revealed.getD idx false = true
    · rw [if_pos hrevd]
      exact nullInv_registerStrike s h
    rw [if_neg hrevd]
    dsimp only
    by_cases hcomp : ((mapWithIdx (fun i flag => if i = idx then true else flag)
        r0.revealed).all (fun b => b)) = true
    · rw [if_pos hcomp]
      exact nullInv_finalize now _ _ _ _ q0 _ rfl rfl
    · rw [if_neg hcomp]
      simp [NullInv]

lemma nullInv_submitSteal (now : Int) (s : InternalState) (guess : Str)
    (oracle : ValidationResponse) (h : NullInv s) :
    NullInv (submitSteal now s guess oracle).2 := by
  unfold submitSteal
  rcases hp : s.phase with _ | _ | _ | _
  case setup => exact h
  case playing => exact h
  case results => exact h
  case steal =>
  rcases hq0 : s.currentQuestion with _ | q0
  · exact h
  rcases hr0 : s.round with _ | r0
  · exact h
  dsimp only
  by_cases hemp : normalizeAnswer guess = []
  · rw [if_pos hemp]
    exact nullInv_finalize now _ _ _ _ q0 _ rfl rfl
  rw [if_neg hemp]
  rcases hres : resolveAnswerIdx (q0.answers.map (fun a => normalizeAnswer a.text))
      (normalizeAnswer guess) oracle with ⟨oidx, oto, oconf⟩
  rw [hres]
  cases oidx with
  | none => exact nullInv_finalize now _ _ _ _ q0 _ rfl rfl
  | some idx =>
    dsimp only
    by_cases hrevd : r0.revealed.getD idx false = true
    · rw [if_pos hrevd]
      exact nullInv_finalize now _ _ _ _ q0 _ rfl rfl
    · rw [if_neg hrevd]
      exact nullInv_finalize now _ _ _ _ q0 _ rfl rfl

/-- C6 counterexample: loading and sanitizing a persisted snapshot holding
a valid `currentQuestion` (matching the pool) but a null `round` yields a
state with `currentQuestion` non-null and `round` null — the both-null-or-
both-non-null invariant does not survive sanitization of arbitrary input. -/
theorem C6_null_invariant_counterexample :
    (loadInitialSnapshot 0 (fun _ => 0) (some exStoreBad) [exQ2]).map
      (fun p => (p.1.currentQuestion, p.1.round)) = some (some exQ2, none) ∧
    ¬ NullInv (sanitizeState 0 exJbad [exQ2]) := by
  decide

/-- C6 (amended): `round` and `currentQuestion` are both null or both
non-null, and every public operation preserves this; load-time sanitization
guarantees only the direction "round non-null → currentQuestion non-null"
(a malformed persisted round under a valid question sanitizes to a
non-null question with a null round). -/
theorem C6_null_invariant :
    (∀ a b, NullInv (startGame a b)) ∧
    (∀ s q, NullInv (setNextQuestion s q)) ∧
    (∀ now s guess oracle, NullInv s → NullInv (submitAnswer now s guess oracle).2) ∧
    (∀ now s guess oracle, NullInv s → NullInv (submitSteal now s guess oracle).2) ∧
    (∀ s idx, NullInv s → NullInv (revealAnswerByIndex s idx)) ∧
    (∀ s, NullInv s → NullInv (registerStrike s)) ∧
    (∀ s, NullInv (endRoundAdvance s)) ∧
    (∀ s, NullInv (endGame s)) ∧
    (∀ now j pool, (sanitizeState now j pool).round ≠ none →
      (sanitizeState now j pool).currentQuestion ≠ none) := by
  refine ⟨?_, ?_, ?_, ?_, ?_, ?_, ?_, ?_, ?_⟩
  · intro a b
    simp [NullInv, startGame]
  · intro s q
    simp [NullInv, setNextQuestion]
  · intro now s guess oracle h
    exact nullInv_submitAnswer now s guess oracle h
  · intro now s guess oracle h
    exact nullInv_submitSteal now s guess oracle h
  · intro s idx h
    exact nullInv_revealAnswerByIndex s idx h
  · intro s h
    exact nullInv_registerStrike s h
  · intro s
    simp [NullInv, endRoundAdvance]
  · intro s
    simp [NullInv, endGame]
  · intro now j pool hround hq
    apply hround
    unfold sanitizeState at hq ⊢
    by_cases hobj : jIsObject j = true
    · rw [if_neg (not_not_intro hobj)] at hq ⊢
      dsimp only at hq ⊢
      rw [hq]
      rfl
    · rw [if_pos hobj]
      rfl

theorem C6_null_invariant_witness :
    NullInv exC2w ∧
    NullInv (submitAnswer 0 exC2w "dog".toList exOracleFalse).2 ∧
    NullInv (registerStrike exC2w) :=
  ⟨by decide,
    C6_null_invariant.2.2.1 0 exC2w "dog".toList exOracleFalse (by decide),
    C6_null_invariant.2.2.2.2.2.1 exC2w (by decide)⟩


lemma cons_set_perm : ∀ (xs : List Nat) (j : Nat) (a b : Nat),
    xs.get? j = some b → (b :: xs.set j a).Perm (a :: xs)
  | [], j, _, _, h => by cases j <;> cases h
  | y :: ys, 0, a, b, h => by
    injection h with h
    subst h
    rw [List.set_cons_zero]
    exact List.Perm.swap a y ys
  | y :: ys, j + 1, a, b, h => by
    rw [List.set_cons_succ]
    have ih := cons_set_perm ys j a b (by simpa using h)
    exact (List.Perm.swap y b _).trans ((ih.cons y).trans (List.Perm.swap a y ys))

lemma set_set_perm : ∀ (l : List Nat) (i j : Nat) (a b : Nat),
    l.get? i = some a → l.get? j = some b → ((l.set i b).set j a).Perm l
  | [], i, _, _, _, ha, _ => by cases i <;> cases ha
  | x :: xs, 0, 0, a, b, ha, hb => by
    injection ha with ha
    injection hb with hb
    subst ha
    subst hb
    rw [List.set_cons_zero, List.set_cons_zero]
  | x :: xs, 0, j + 1, a, b, ha, hb => by
    injection ha with ha
    subst ha
    rw [List.set_cons_zero, List.set_cons_succ]
    exact cons_set_perm xs j x b (by simpa using hb)
  | x :: xs, i + 1, 0, a, b, ha, hb => by
    injection hb with hb
    subst hb
    rw [List.set_cons_succ, List.set_cons_zero]
    exact cons_set_perm xs i x a (by simpa using ha)
  | x :: xs, i + 1, j + 1, a, b, ha, hb => by
    rw [List.set_cons_succ, List.set_cons_succ]
    exact (set_set_perm xs i j a b (by simpa using ha) (by simpa using hb)).cons x

lemma swapL_perm (l : List Nat) (i j : Nat) : (swapL l i j).Perm l := by
  unfold swapL
  rcases ha : l.get? i with _ | a <;> rcases hb : l.get? j with _ | b <;>
    simp only [ha, hb] <;>
    first
      | exact List.Perm.refl _
      | exact set_set_perm l i j a b ha hb

lemma fyAux_perm (rand : Nat → Nat) : ∀ (c : Nat) (l : List Nat), (fyAux rand c l).Perm l
  | 0, l => List.Perm.refl l
  | c + 1, l => (fyAux_perm rand c _).trans (swapL_perm l (c + 1) (rand (c + 1)))

lemma createShuffledIndices_perm (rand : Nat → Nat) (n : Nat) :
    (createShuffledIndices rand n).Perm (List.range n) := by
  cases n with
  | zero => exact List.Perm.refl _
  | succ m => exact fyAux_perm rand m (List.range (m + 1))

lemma range_map_nodup (n : Nat) : ((List.range n).map (fun k : Nat => (k : Int))).Nodup :=
  List.Nodup.map (fun a b h => Nat.cast_injective h) (List.nodup_range n)

lemma createDefaultDeck_order_perm (rand : Nat → Nat) (n : Nat) (hn : 1 ≤ n) :
    (createDefaultDeck rand n).order.Perm ((List.range n).map (fun k : Nat => (k : Int))) := by
  unfold createDefaultDeck
  dsimp only
  rw [if_pos (by omega : n > 0)]
  exact (createShuffledIndices_perm rand n).map (fun k : Nat => (k : Int))


lemma deckFilterLoop_spec (total : Nat) : ∀ (vals acc : List Int),
    acc.Nodup → (∀ v ∈ acc, 0 ≤ v ∧ v < (total : Int)) →
    (deckFilterLoop total vals acc).Nodup ∧
      (∀ v ∈ deckFilterLoop total vals acc, 0 ≤ v ∧ v < (total : Int)) ∧
      (∀ v ∈ acc, v ∈ deckFilterLoop total vals acc)
  | [], acc, hnd, hrange => ⟨hnd, hrange, fun _ hv => hv⟩
  | v :: vs, acc, hnd, hrange => by
    simp only [deckFilterLoop]
    split_ifs with hcond
    · have hnd2 : (acc ++ [v]).Nodup := by
        rw [List.nodup_append]
        refine ⟨hnd, List.nodup_singleton v, ?_⟩
        intro a ha hav
        rw [List.mem_singleton] at hav
        subst hav
        exact hcond.2.2 ha
      have hr2 : ∀ u ∈ acc ++ [v], 0 ≤ u ∧ u < (total : Int) := by
        intro u hu
        rcases List.mem_append.mp hu with h | h
        · exact hrange u h
        · rw [List.mem_singleton] at h
          subst h
          exact ⟨hcond.1, hcond.2.1⟩
      obtain ⟨h1, h2, h3⟩ := deckFilterLoop_spec total vs (acc ++ [v]) hnd2 hr2
      exact ⟨h1, h2, fun u hu => h3 u (List.mem_append_left _ hu)⟩
    · exact deckFilterLoop_spec total vs acc hnd hrange

lemma deckFilterLoop_id (total : Nat) : ∀ (vals acc : List Int),
    vals.Nodup → (∀ v ∈ vals, 0 ≤ v ∧ v < (total : Int)) → (∀ v ∈ vals, v ∉ acc) →
    deckFilterLoop total vals acc = acc ++ vals
  | [], acc, _, _, _ => by simp [deckFilterLoop]
  | v :: vs, acc, hnd, hrange, hdisj => by
    simp only [deckFilterLoop]
    have hv := hrange v (List.mem_cons_self v vs)
    rw [if_pos ⟨hv.1, hv.2, hdisj v (List.mem_cons_self v vs)⟩]
    rw [deckFilterLoop_id total vs (acc ++ [v]) (List.Nodup.of_cons hnd)
      (fun u hu => hrange u (List.mem_cons_of_mem v hu))
      (fun u hu hmem => by
        rcases List.mem_append.mp hmem with h | h
        · exact hdisj u (List.mem_cons_of_mem v hu) h
        · rw [List.mem_singleton] at h
          subst h
          exact (List.nodup_cons.mp hnd).1 hu)]
    simp

lemma deckMissing_mem (total : Nat) (order : List Int) (j : Int) :
    j ∈ deckMissing total order ↔ ∃ k, k < total ∧ (k : Int) = j ∧ j ∉ order := by
  unfold deckMissing
  rw [List.mem_filterMap]
  constructor
  · rintro ⟨a, ha, hfa⟩
    rw [List.mem_range] at ha
    by_cases hmem : (a : Int) ∈ order
    · rw [if_pos hmem] at hfa
      cases hfa
    · rw [if_neg hmem] at hfa
      injection hfa with hfa
      subst hfa
      exact ⟨a, ha, rfl, hmem⟩
  · rintro ⟨k, hk, rfl, hnot⟩
    exact ⟨k, List.mem_range.mpr hk, by rw [if_neg hnot]⟩

lemma deckMissing_nodup (total : Nat) (order : List Int) :
    (deckMissing total order).Nodup := by
  unfold deckMissing
  apply List.Nodup.filterMap
  · intro a a' b hb hb'
    by_cases ha : (a : Int) ∈ order
    · rw [if_pos ha] at hb
      cases hb
    · rw [if_neg ha] at hb
      by_cases ha' : (a' : Int) ∈ order
      · rw [if_pos ha'] at hb'
        cases hb'
      · rw [if_neg ha'] at hb'
        rw [Option.mem_def] at hb hb'
        injection hb with hb
        injection hb' with hb'
        subst hb
        exact (Nat.cast_injective hb').symm
  · exact List.nodup_range total

lemma deckCore_spec (rand : Nat → Nat) (order0 : List Int) (idx0 : Int) (total : Nat)
    (ht : 1 ≤ total) :
    (deckCore rand order0 idx0 total).order.Perm ((List.range total).map (fun k : Nat => (k : Int))) ∧
      (deckCore rand order0 idx0 total).index ≤ total := by
  obtain ⟨hnd1, hr1, _⟩ := deckFilterLoop_spec total order0 [] (List.nodup_nil) (by simp)
  unfold deckCore
  dsimp only
  set order1 := deckFilterLoop total order0 [] with horder1
  set order := order1 ++ deckMissing total order1 with horder
  have hnd : order.Nodup := by
    rw [horder, List.nodup_append]
    refine ⟨hnd1, deckMissing_nodup total order1, ?_⟩
    intro a ha hmem
    obtain ⟨k, _, _, hnot⟩ := (deckMissing_mem total order1 a).mp hmem
    exact hnot ha
  have hsub1 : order ⊆ (List.range total).map Int.ofNat := by
    intro v hv
    rcases List.mem_append.mp hv with h | h
    · obtain ⟨h0, hlt⟩ := hr1 v h
      rw [List.mem_map]
      exact ⟨v.toNat, List.mem_range.mpr (by omega), Int.toNat_of_nonneg h0⟩
    · obtain ⟨k, hk, hvk, _⟩ := (deckMissing_mem total order1 v).mp h
      rw [List.mem_map]
      exact ⟨k, List.mem_range.mpr hk, hvk⟩
  have hsub2 : (List.range total).map (fun k : Nat => (k : Int)) ⊆ order := by
    intro v hv
    rw [List.mem_map] at hv
    obtain ⟨k, hk, hvk⟩ := hv
    rw [List.mem_range] at hk
    by_cases hmem : v ∈ order1
    · exact List.mem_append_left _ hmem
    · refine List.mem_append_right _ ?_
      rw [deckMissing_mem total order1 v]
      exact ⟨k, hk, hvk, by rw [← hvk] at hmem ⊢; exact hmem⟩
  have hperm : order.Perm ((List.range total).map (fun k : Nat => (k : Int))) :=
    ((hnd.subperm hsub1).antisymm ((range_map_nodup total).subperm hsub2))
  have hlen : order.length = total := by
    rw [hperm.length_eq, List.length_map, List.length_range]
  rw [if_pos (by omega : 0 < order.length)]
  refine ⟨hperm, ?_⟩
  have h1 : min (max idx0 0) ((order.length : Nat) : Int) ≤ ((order.length : Nat) : Int) :=
    min_le_right _ _
  rw [hlen] at h1
  rw [hlen]
  exact Int.toNat_le.mpr h1

lemma deckCore_id (rand : Nat → Nat) (order : List Int) (idx : Int) (total : Nat)
    (ht : 1 ≤ total) (hperm : order.Perm ((List.range total).map (fun k : Nat => (k : Int))))
    (h0 : 0 ≤ idx) (hidx : idx ≤ (total : Int)) :
    deckCore rand order idx total = ⟨order, idx.toNat⟩ := by
  have hnd : order.Nodup := hperm.nodup_iff.mpr (range_map_nodup total)
  have hrange : ∀ v ∈ order, 0 ≤ v ∧ v < (total : Int) := by
    intro v hv
    have := hperm.mem_iff.mp hv
    rw [List.mem_map] at this
    obtain ⟨k, hk, hvk⟩ := this
    rw [List.mem_range] at hk
    omega
  have hfull : ∀ k, k < total → (k : Int) ∈ order := by
    intro k hk
    rw [hperm.mem_iff, List.mem_map]
    exact ⟨k, List.mem_range.mpr hk, rfl⟩
  unfold deckCore
  dsimp only
  rw [deckFilterLoop_id total order [] hnd hrange (by simp)]
  rw [List.nil_append]
  have hmiss : deckMissing total order = [] := by
    rw [deckMissing]
    rw [List.filterMap_eq_nil_iff]
    intro a ha
    rw [List.mem_range] at ha
    rw [if_pos (hfull a ha)]
  rw [hmiss, List.append_nil]
  have hlen : order.length = total := by
    rw [hperm.length_eq, List.length_map, List.length_range]
  rw [if_pos (by omega : 0 < order.length)]
  have hminmax : min (max idx 0) ((order.length : Nat) : Int) = idx := by
    rw [hlen, max_eq_left h0, min_eq_left hidx]
  rw [hminmax]

lemma normalizeDeck_valid (rand : Nat → Nat) (d : QuestionDeck) (total : Nat)
    (ht : 1 ≤ total) (hw : WFDeck d total) :
    normalizeDeck rand (some d) total = d := by
  unfold normalizeDeck
  rw [if_neg (by omega : ¬total = 0)]
  dsimp only
  rw [deckCore_id rand d.order (d.index : Int) total ht hw.1 (by omega)
    (by exact_mod_cast hw.2)]
  simp


lemma drawNextQuestion_at (rand : Nat → Nat) (pool : List Question) (σ : List Int)
    (i : Nat) (v : Int)
    (hperm : σ.Perm ((List.range pool.length).map (fun k : Nat => (k : Int))))
    (hi : i < pool.length) (hv : σ.get? i = some v) :
    drawNextQuestion rand pool ⟨σ, i⟩ =
      ((if (0 : Int) ≤ v then pool.get? v.toNat else none), ⟨σ, i + 1⟩) := by
  have hlen : σ.length = pool.length := by
    rw [hperm.length_eq, List.length_map, List.length_range]
  unfold drawNextQuestion
  rw [if_neg (by omega : ¬pool.length = 0)]
  dsimp only
  rw [normalizeDeck_valid rand ⟨σ, i⟩ pool.length (by omega) ⟨hperm, (by omega : i ≤ pool.length)⟩]
  dsimp only
  rw [if_neg (by omega : ¬σ.length = 0), if_neg (by omega : ¬σ.length ≤ i), hv]

lemma mem_valid_order (pool : List Question) (σ : List Int) (v : Int)
    (hperm : σ.Perm ((List.range pool.length).map (fun k : Nat => (k : Int))))
    (hv : v ∈ σ) : 0 ≤ v ∧ v.toNat < pool.length := by
  have := hperm.mem_iff.mp hv
  rw [List.mem_map] at this
  obtain ⟨k, hk, hvk⟩ := this
  rw [List.mem_range] at hk
  omega

lemma draw_isSome_of_valid (rand : Nat → Nat) (pool : List Question) (σ : List Int)
    (i : Nat)
    (hperm : σ.Perm ((List.range pool.length).map (fun k : Nat => (k : Int))))
    (hi : i < pool.length) :
    ∃ q, (drawNextQuestion rand pool ⟨σ, i⟩).1 = some q ∧ q ∈ pool := by
  have hlen : σ.length = pool.length := by
    rw [hperm.length_eq, List.length_map, List.length_range]
  have hi2 : i < σ.length := by omega
  have hv : σ.get? i = some (σ.get ⟨i, hi2⟩) := List.get?_eq_get hi2
  rw [drawNextQuestion_at rand pool σ i _ hperm hi hv]
  obtain ⟨h0, hlt⟩ := mem_valid_order pool σ (σ.get ⟨i, hi2⟩) hperm (List.get_mem σ i hi2)
  rw [if_pos h0, List.get?_eq_get hlt]
  exact ⟨_, rfl, List.get_mem pool _ hlt⟩

lemma drawNextQuestion_isSome (rand : Nat → Nat) (pool : List Question)
    (deck : QuestionDeck) (hn : 1 ≤ pool.length) :
    ∃ q, (drawNextQuestion rand pool deck).1 = some q ∧ q ∈ pool := by
  obtain ⟨hperm1, hidx1⟩ := deckCore_spec rand deck.order (deck.index : Int) pool.length hn
  unfold drawNextQuestion
  rw [if_neg (by omega : ¬pool.length = 0)]
  dsimp only
  have hnmatch : normalizeDeck rand (some deck) pool.length =
      deckCore rand deck.order (deck.index : Int) pool.length := by
    unfold normalizeDeck
    rw [if_neg (by omega : ¬pool.length = 0)]
  rw [hnmatch]
  set d1 := deckCore rand deck.order (deck.index : Int) pool.length with hd1
  have hlen1 : d1.order.length = pool.length := by
    rw [hperm1.length_eq, List.length_map, List.length_range]
  rw [if_neg (by omega : ¬d1.order.length = 0)]
  by_cases hend : d1.order.length ≤ d1.index
  · rw [if_pos hend]
    have hperm2 := createDefaultDeck_order_perm rand pool.length hn
    have hidx2 : (createDefaultDeck rand pool.length).index = 0 := rfl
    have hlen2 : (createDefaultDeck rand pool.length).order.length = pool.length := by
      rw [hperm2.length_eq, List.length_map, List.length_range]
    set d2 := createDefaultDeck rand pool.length with hd2
    have hi2 : d2.index < d2.order.length := by omega
    have hv : d2.order.get? d2.index = some (d2.order.get ⟨d2.index, hi2⟩) :=
      List.get?_eq_get hi2
    rw [hv]
    obtain ⟨h0, hlt⟩ := mem_valid_order pool d2.order (d2.order.get ⟨d2.index, hi2⟩) hperm2
      (List.get_mem d2.order d2.index hi2)
    dsimp only
    rw [if_pos h0, List.get?_eq_get hlt]
    exact ⟨_, rfl, List.get_mem pool _ hlt⟩
  · rw [if_neg hend]
    have hi2 : d1.index < d1.order.length := by omega
    have hv : d1.order.get? d1.index = some (d1.order.get ⟨d1.index, hi2⟩) :=
      List.get?_eq_get hi2
    rw [hv]
    obtain ⟨h0, hlt⟩ := mem_valid_order pool d1.order (d1.order.get ⟨d1.index, hi2⟩) hperm1
      (List.get_mem d1.order d1.index hi2)
    dsimp only
    rw [if_pos h0, List.get?_eq_get hlt]
    exact ⟨_, rfl, List.get_mem pool _ hlt⟩

lemma drawSeq_fresh (rand : Nat → Nat) (pool : List Question) (hn : 1 ≤ pool.length) :
    ∀ (k i : Nat) (σ : List Int),
      σ.Perm ((List.range pool.length).map (fun j : Nat => (j : Int))) →
      i + k = pool.length →
      drawSeq rand pool k ⟨σ, i⟩ =
        ((σ.drop i).map (fun v => if (0 : Int) ≤ v then pool.get? v.toNat else none),
          ⟨σ, pool.length⟩)
  | 0, i, σ, hperm, hik => by
    have hlen : σ.length = pool.length := by
      rw [hperm.length_eq, List.length_map, List.length_range]
    have hi : i = pool.length := by omega
    subst hi
    simp only [drawSeq]
    rw [List.drop_eq_nil_of_le (by omega)]
    rfl
  | k + 1, i, σ, hperm, hik => by
    have hlen : σ.length = pool.length := by
      rw [hperm.length_eq, List.length_map, List.length_range]
    have hi : i < pool.length := by omega
    have hv : σ.get? i = some (σ.get ⟨i, by omega⟩) := List.get?_eq_get _
    simp only [drawSeq]
    rw [drawNextQuestion_at rand pool σ i _ hperm hi hv]
    rw [drawSeq_fresh rand pool hn k (i + 1) σ hperm (by omega)]
    dsimp only
    have hdrop : σ.drop i = σ.get ⟨i, by omega⟩ :: σ.drop (i + 1) := by
      rw [List.get_eq_getElem]
      exact (List.getElem_cons_drop σ i (by omega)).symm
    rw [hdrop, List.map_cons]

lemma range_map_get? (pool : List Question) :
    (List.range pool.length).map (fun k => pool.get? k) = pool.map some := by
  induction pool with
  | nil => rfl
  | cons x xs ih =>
    rw [List.length_cons, List.range_succ_eq_map, List.map_cons, List.map_map,
      List.map_cons]
    refine congrArg (List.cons (some x)) ?_
    rw [← ih]
    rfl

/-- C7: with a nonempty pool, `drawNextQuestion` never returns null; from a
fresh deck, `pool.length` successive draws return each pool question exactly
once (a permutation of the pool), and the following draw reshuffles and
again returns a question from the pool. -/
theorem C7_deck_draws_permutation (pool : List Question) (rand : Nat → Nat)
    (hn : 1 ≤ pool.length) :
    (∀ deck : QuestionDeck, ∃ q, (drawNextQuestion rand pool deck).1 = some q ∧ q ∈ pool) ∧
    ((drawSeq rand pool pool.length (createDefaultDeck rand pool.length)).1.filterMap
      id).Perm pool ∧
    (∃ q, (drawNextQuestion rand pool
        (drawSeq rand pool pool.length (createDefaultDeck rand pool.length)).2).1 = some q ∧
      q ∈ pool) := by
  have hperm0 := createDefaultDeck_order_perm rand pool.length hn
  have hseq := drawSeq_fresh rand pool hn pool.length 0
    (createDefaultDeck rand pool.length).order hperm0 (by omega)
  have hdeck0 : (createDefaultDeck rand pool.length) =
      ⟨(createDefaultDeck rand pool.length).order, 0⟩ := rfl
  refine ⟨fun deck => drawNextQuestion_isSome rand pool deck hn, ?_, ?_⟩
  · rw [hdeck0, hseq]
    dsimp only
    rw [List.drop_zero]
    have hmap : ((createDefaultDeck rand pool.length).order.map
        (fun v => if (0 : Int) ≤ v then pool.get? v.toNat else none)).Perm
        (((List.range pool.length).map (fun j : Nat => (j : Int))).map
          (fun v => if (0 : Int) ≤ v then pool.get? v.toNat else none)) :=
      hperm0.map _
    have heq : (((List.range pool.length).map (fun j : Nat => (j : Int))).map
        (fun v => if (0 : Int) ≤ v then pool.get? v.toNat else none)) = pool.map some := by
      rw [List.map_map, ← range_map_get? pool]
      apply List.map_congr_left
      intro k _
      simp only [Function.comp]
      rw [if_pos (by omega : (0 : Int) ≤ (k : Int)), Int.toNat_natCast]
    rw [heq] at hmap
    have hfm := hmap.filterMap id
    have hpool : (pool.map some).filterMap id = pool := by
      rw [List.filterMap_map]
      simp
    rw [hpool] at hfm
    exact hfm
  · rw [hdeck0, hseq]
    exact drawNextQuestion_isSome rand pool _ hn


theorem C7_deck_draws_permutation_witness :
    1 ≤ exPool.length ∧
    (∃ q, (drawNextQuestion (fun _ => 0) exPool ⟨[7, -3], 5⟩).1 = some q ∧ q ∈ exPool) ∧
    ((drawSeq (fun _ => 0) exPool exPool.length
      (createDefaultDeck (fun _ => 0) exPool.length)).1.filterMap id).Perm exPool ∧
    (∃ q, (drawNextQuestion (fun _ => 0) exPool
        (drawSeq (fun _ => 0) exPool exPool.length
          (createDefaultDeck (fun _ => 0) exPool.length)).2).1 = some q ∧ q ∈ exPool) :=
  ⟨by decide,
    (C7_deck_draws_permutation exPool (fun _ => 0) (by decide)).1 ⟨[7, -3], 5⟩,
    (C7_deck_draws_permutation exPool (fun _ => 0) (by decide)).2.1,
    (C7_deck_draws_permutation exPool (fun _ => 0) (by decide)).2.2⟩

lemma jGet_cons_pos (k : Str) (v : JValue) (rest : List (Str × JValue)) :
    jGet (.jobj ((k, v) :: rest)) k = some v := by
  simp [jGet]

lemma jGet_cons_neg (k k' : Str) (v : JValue) (rest : List (Str × JValue)) (h : ¬k' = k) :
    jGet (.jobj ((k', v) :: rest)) k = jGet (.jobj rest) k := by
  simp [jGet, List.find?_cons_of_neg, h]

lemma sanitizeTeam_roundtrip (t : Team) (fn fc : Str) (hname : jsTrim t.name ≠ []) :
    sanitizeTeam (encodeTeam t) fn fc = t := by
  unfold sanitizeTeam encodeTeam
  rw [if_neg (by simp [jIsObject])]
  rw [jGet_cons_pos]
  rw [jGet_cons_neg _ _ _ _ (by simp), jGet_cons_pos]
  rw [jGet_cons_neg _ _ _ _ (by simp), jGet_cons_neg _ _ _ _ (by simp), jGet_cons_pos]
  dsimp only
  rw [if_pos hname]

lemma matchQuestion_roundtrip (q : Question) (pool : List Question)
    (hfind : pool.find? (fun p => decide (p.question = q.question)) = some q) :
    matchQuestion (encodeQuestion q) pool = some q := by
  unfold matchQuestion encodeQuestion
  rw [if_neg (by simp [jIsObject])]
  rw [jGet_cons_pos]
  exact hfind

lemma revealed_roundtrip : ∀ (answers : List Answer) (rev : List Bool),
    rev.length = answers.length →
    mapWithIdx (fun idx _ => match (rev.map JValue.jbool).get? idx with
      | some (.jbool b) => b
      | _ => false) answers = rev := by
  intro answers rev hlen
  apply List.ext_getElem?
  intro i
  rw [mapWithIdx_getElem?]
  by_cases hi : i < answers.length
  · rw [List.getElem?_eq_getElem hi, List.getElem?_eq_getElem (show i < rev.length by omega)]
    dsimp only
    rw [show (rev.map JValue.jbool).get? i = some (JValue.jbool rev[i]) by
      rw [List.get?_eq_getElem?, List.getElem?_map,
        List.getElem?_eq_getElem (show i < rev.length by omega)]
      rfl]
    rfl
  · rw [List.getElem?_eq_none (by omega), List.getElem?_eq_none (by omega)]
    rfl

lemma sanitizeRound_roundtrip (r : RoundState) (q : Question)
    (hlen : r.revealed.length = q.answers.length)
    (hs0 : 0 ≤ r.strikes) (hs3 : r.strikes ≤ 3) (hp : 0 ≤ r.roundPot) :
    sanitizeRound (encodeRound r) (some q) = some r := by
  unfold sanitizeRound encodeRound
  dsimp only
  rw [if_neg (by simp [jIsObject])]
  rw [jGet_cons_neg _ _ _ _ (by simp), jGet_cons_pos]
  rw [jGet_cons_neg _ _ _ _ (by simp), jGet_cons_neg _ _ _ _ (by simp), jGet_cons_pos]
  rw [jGet_cons_pos]
  dsimp only
  rw [revealed_roundtrip q.answers r.revealed hlen]
  rw [show max 0 (min 3 r.strikes) = r.strikes by omega,
    show max 0 r.roundPot = r.roundPot by omega]

lemma sanitizeHistAnswer_roundtrip (a : HistAnswer) :
    sanitizeHistAnswer (encodeHistAnswer a) = a := by
  unfold sanitizeHistAnswer encodeHistAnswer
  rw [if_neg (by simp [jIsObject])]
  rw [jGet_cons_pos]
  rw [jGet_cons_neg _ _ _ _ (by simp), jGet_cons_pos]
  rw [jGet_cons_neg _ _ _ _ (by simp), jGet_cons_neg _ _ _ _ (by simp), jGet_cons_pos]

lemma sanitizeOptIdx_roundtrip (w : Option Nat) (hw : ∀ x, w = some x → x ≤ 1) :
    sanitizeOptIdx (some (encodeOptIdx w)) = w := by
  rcases w with _ | x
  · rfl
  · have hx := hw x rfl
    interval_cases x <;> rfl

lemma sanitizeHistoryEntry_roundtrip (now : Int) (e : RoundHistoryEntry)
    (hs0 : 0 ≤ e.strikes) (hs3 : e.strikes ≤ 3) (ha : 0 ≤ e.awardedPoints)
    (hw : ∀ w, e.winningTeam = some w → w ≤ 1) :
    sanitizeHistoryEntry now (encodeHistoryEntry e) = some e := by
  unfold sanitizeHistoryEntry
  rw [if_neg (by simp [encodeHistoryEntry, jIsObject])]
  have h1 : jGet (encodeHistoryEntry e) "question".toList = some (.jstr e.question) := by
    unfold encodeHistoryEntry
    rw [jGet_cons_pos]
  have h2 : jGet (encodeHistoryEntry e) "answers".toList
      = some (.jarr (e.answers.map encodeHistAnswer)) := by
    unfold encodeHistoryEntry
    rw [jGet_cons_neg _ _ _ _ (by simp), jGet_cons_pos]
  have h3 : jGet (encodeHistoryEntry e) "strikes".toList = some (.jnum e.strikes) := by
    unfold encodeHistoryEntry
    rw [jGet_cons_neg _ _ _ _ (by simp), jGet_cons_neg _ _ _ _ (by simp), jGet_cons_pos]
  have h4 : jGet (encodeHistoryEntry e) "winningTeam".toList
      = some (encodeOptIdx e.winningTeam) := by
    unfold encodeHistoryEntry
    rw [jGet_cons_neg _ _ _ _ (by simp), jGet_cons_neg _ _ _ _ (by simp),
      jGet_cons_neg _ _ _ _ (by simp), jGet_cons_pos]
  have h5 : jGet (encodeHistoryEntry e) "awardedPoints".toList
      = some (.jnum e.awardedPoints) := by
    unfold encodeHistoryEntry
    rw [jGet_cons_neg _ _ _ _ (by simp), jGet_cons_neg _ _ _ _ (by simp),
      jGet_cons_neg _ _ _ _ (by simp), jGet_cons_neg _ _ _ _ (by simp), jGet_cons_pos]
  have h6 : jGet (encodeHistoryEntry e) "occurredAt".toList = some (.jnum e.occurredAt) := by
    unfold encodeHistoryEntry
    rw [jGet_cons_neg _ _ _ _ (by simp), jGet_cons_neg _ _ _ _ (by simp),
      jGet_cons_neg _ _ _ _ (by simp), jGet_cons_neg _ _ _ _ (by simp),
      jGet_cons_neg _ _ _ _ (by simp), jGet_cons_pos]
  rw [h1, h2, h3, h4, h5, h6]
  dsimp only
  rw [sanitizeOptIdx_roundtrip e.winningTeam hw]
  have hans : (e.answers.map encodeHistAnswer).map sanitizeHistAnswer = e.answers := by
    rw [List.map_map]
    have hpt : ∀ a ∈ e.answers, (sanitizeHistAnswer ∘ encodeHistAnswer) a = a := by
      intro a _
      exact sanitizeHistAnswer_roundtrip a
    rw [List.map_congr_left hpt]
    exact List.map_id e.answers
  rw [hans]
  rw [show max 0 (min 3 e.strikes) = e.strikes by omega,
    show max 0 e.awardedPoints = e.awardedPoints by omega]

lemma sliceLast_of_le (n : Nat) (l : List α) (h : l.length ≤ n) : sliceLast n l = l := by
  unfold sliceLast
  rw [show l.length - n = 0 by omega, List.drop_zero]

lemma history_roundtrip (now : Int) (l : List RoundHistoryEntry)
    (h : ∀ e ∈ l, 0 ≤ e.strikes ∧ e.strikes ≤ 3 ∧ 0 ≤ e.awardedPoints ∧
      (∀ w, e.winningTeam = some w → w ≤ 1)) :
    (l.map encodeHistoryEntry).filterMap (sanitizeHistoryEntry now) = l := by
  induction l with
  | nil => rfl
  | cons e tl ih =>
    obtain ⟨he1, he2, he3, he4⟩ := h e (List.mem_cons_self e tl)
    rw [List.map_cons, List.filterMap_cons,
      sanitizeHistoryEntry_roundtrip now e he1 he2 he3 he4]
    dsimp only
    rw [ih (fun x hx => h x (List.mem_cons_of_mem e hx))]

lemma jGet_nil (k : Str) : jGet (.jobj []) k = none := rfl

lemma sanitizeRound_jnull (q? : Option Question) : sanitizeRound .jnull q? = none := by
  rcases q? with _ | q <;> rfl

lemma sanitizeState_roundtrip (now : Int) (s : InternalState) (pool : List Question)
    (hwf : WFState s pool) :
    sanitizeState now (encodeState s) pool = s := by
  obtain ⟨hteams2, hnames, hai, hrwin, hstl, hq, hround, hhlen, hhist⟩ := hwf
  obtain ⟨ts, ai, ph, cq, rd, ve, rwin, hist, sti⟩ := s
  dsimp only at hteams2 hnames hai hrwin hstl hq hround hhlen hhist
  obtain ⟨t0, t1, rfl⟩ := List.length_eq_two.mp hteams2
  unfold sanitizeState encodeState
  rw [if_neg (by simp [jIsObject])]
  rcases sti with _ | st
  · dsimp only [List.cons_append, List.nil_append]
    simp +decide only [jGet_cons_pos, jGet_cons_neg, jGet_nil, jGetD, Option.getD_some,
      List.map_cons, List.map_nil]
    simp only [InternalState.mk.injEq]
    refine ⟨?_, ?_, ?_, ?_, ?_, trivial, ?_, ?_, ?_⟩
    · rw [if_pos (show [encodeTeam t0, encodeTeam t1].length = 2 from rfl)]
      rw [show [encodeTeam t0, encodeTeam t1].getD 0 JValue.jnull = encodeTeam t0 from rfl,
        show [encodeTeam t0, encodeTeam t1].getD 1 JValue.jnull = encodeTeam t1 from rfl]
      rw [sanitizeTeam_roundtrip t0 _ _ (hnames t0 (by simp)),
        sanitizeTeam_roundtrip t1 _ _ (hnames t1 (by simp))]
    · interval_cases ai <;> rfl
    · cases ph <;> rfl
    · rcases cq with _ | q
      · rfl
      · dsimp only
        exact matchQuestion_roundtrip q pool (hq q rfl)
    · rcases rd with _ | r
      · rw [sanitizeRound_jnull]
      · obtain ⟨q, hcq, hlen, h0, h3, hp⟩ := hround r rfl
        subst hcq
        dsimp only
        rw [matchQuestion_roundtrip q pool (hq q rfl)]
        exact sanitizeRound_roundtrip r q hlen h0 h3 hp
    · exact sanitizeOptIdx_roundtrip rwin hrwin
    · rw [history_roundtrip now hist hhist]
      exact sliceLast_of_le _ _ hhlen
    · rfl
  · dsimp only [List.cons_append, List.nil_append]
    simp +decide only [jGet_cons_pos, jGet_cons_neg, jGet_nil, jGetD, Option.getD_some,
      List.map_cons, List.map_nil]
    simp only [InternalState.mk.injEq]
    refine ⟨?_, ?_, ?_, ?_, ?_, trivial, ?_, ?_, ?_⟩
    · rw [if_pos (show [encodeTeam t0, encodeTeam t1].length = 2 from rfl)]
      rw [show [encodeTeam t0, encodeTeam t1].getD 0 JValue.jnull = encodeTeam t0 from rfl,
        show [encodeTeam t0, encodeTeam t1].getD 1 JValue.jnull = encodeTeam t1 from rfl]
      rw [sanitizeTeam_roundtrip t0 _ _ (hnames t0 (by simp)),
        sanitizeTeam_roundtrip t1 _ _ (hnames t1 (by simp))]
    · interval_cases ai <;> rfl
    · cases ph <;> rfl
    · rcases cq with _ | q
      · rfl
      · dsimp only
        exact matchQuestion_roundtrip q pool (hq q rfl)
    · rcases rd with _ | r
      · rw [sanitizeRound_jnull]
      · obtain ⟨q, hcq, hlen, h0, h3, hp⟩ := hround r rfl
        subst hcq
        dsimp only
        rw [matchQuestion_roundtrip q pool (hq q rfl)]
        exact sanitizeRound_roundtrip r q hlen h0 h3 hp
    · exact sanitizeOptIdx_roundtrip rwin hrwin
    · rw [history_roundtrip now hist hhist]
      exact sliceLast_of_le _ _ hhlen
    · have hst := hstl st rfl
      interval_cases st <;> rfl

lemma filterMap_jNumEntry (l : List Int) :
    (l.map JValue.jnum).filterMap jNumEntry = l := by
  induction l with
  | nil => rfl
  | cons x xs ih =>
    rw [List.map_cons, List.filterMap_cons]
    dsimp only [jNumEntry]
    rw [ih]

lemma jNormalizeDeck_roundtrip (rand : Nat → Nat) (d : QuestionDeck) (total : Nat)
    (hw : WFDeck d total) :
    jNormalizeDeck rand (encodeDeck d) total = d := by
  obtain ⟨ord, idx⟩ := d
  obtain ⟨hperm, hidx⟩ := hw
  dsimp only at hperm hidx
  rcases Nat.eq_zero_or_pos total with h0 | hpos
  · subst h0
    rw [List.range_zero, List.map_nil] at hperm
    have hord : ord = [] := hperm.eq_nil
    have hidx0 : idx = 0 := by omega
    subst hord
    subst hidx0
    rfl
  · unfold jNormalizeDeck encodeDeck
    rw [if_neg (by omega)]
    rw [if_neg (by simp [jTruthy])]
    rw [jGet_cons_pos]
    dsimp only
    rw [jGet_cons_neg _ _ _ _ (by simp), jGet_cons_pos]
    dsimp only
    rw [filterMap_jNumEntry]
    rw [deckCore_id rand ord (idx : Int) total hpos hperm (by omega)
      (by exact_mod_cast hidx)]
    rw [Int.toNat_natCast]

lemma loadInitialSnapshot_roundtrip (now now2 : Int) (rand : Nat → Nat)
    (s : InternalState) (d : QuestionDeck) (pool : List Question)
    (hs : WFState s pool) (hd : WFDeck d pool.length) :
    loadInitialSnapshot now2 rand (some (persistSnapshot now s d)) pool = some (s, d) := by
  unfold loadInitialSnapshot readSnapshot persistSnapshot
  dsimp only
  rw [if_neg (by simp [jIsObject])]
  rw [jGet_cons_pos]
  rw [jGet_cons_neg _ _ _ _ (by simp), jGet_cons_pos]
  dsimp only
  rw [if_pos (show jHasField _ "payload".toList = true by simp [jHasField])]
  dsimp only
  rw [if_neg (by simp [STORAGE_VERSION])]
  simp only [jGetD]
  rw [jGet_cons_neg _ _ _ _ (by simp), jGet_cons_neg _ _ _ _ (by simp), jGet_cons_pos]
  simp only [Option.getD_some]
  rw [if_neg (by simp [jIsObject])]
  rw [jGet_cons_pos]
  rw [jGet_cons_neg _ _ _ _ (by simp), jGet_cons_pos]
  simp only [Option.getD_some]
  rw [sanitizeState_roundtrip now2 s pool hs, jNormalizeDeck_roundtrip rand d pool.length hd]

lemma gameInitial_version_mismatch (now : Int) (rand : Nat → Nat) (j : JValue)
    (pool : List Question)
    (hv : ∀ v : Int, jGet j "version".toList = some (.jnum v) → v ≠ STORAGE_VERSION) :
    gameInitial now rand (some j) pool
      = (createDefaultState, createDefaultDeck rand pool.length) := by
  unfold gameInitial loadInitialSnapshot readSnapshot
  dsimp only
  by_cases hobj : jIsObject j = true
  · rw [if_neg (not_not_intro hobj)]
    rcases hv1 : jGet j "version".toList with _ | v0
    · rfl
    · rcases v0 with _ | b | n | st | arr | fields
      · rfl
      · rfl
      · rcases hv2 : jGet j "timestamp".toList with _ | t0
        · rfl
        · rcases t0 with _ | b2 | n2 | st2 | arr2 | fields2
          · rfl
          · rfl
          · dsimp only
            by_cases hpay : jHasField j "payload".toList = true
            · rw [if_pos hpay]
              dsimp only
              rw [if_pos (hv n hv1)]
            · rw [if_neg hpay]
          · rfl
          · rfl
          · rfl
      · rfl
      · rfl
      · rfl
  · rw [if_pos hobj]

/-- C8: (round trip) persisting any well-formed state/deck pair through the
storage adapter and reloading it through `readSnapshot` + load-time
sanitization returns the identical state and deck; and (version mismatch)
loading any stored snapshot whose top-level `version` is not
`STORAGE_VERSION` falls back to the default fresh state and a default
shuffled deck. -/
theorem C8_persistence_roundtrip :
    (∀ (now now2 : Int) (rand : Nat → Nat) (s : InternalState) (d : QuestionDeck)
      (pool : List Question), WFState s pool → WFDeck d pool.length →
      loadInitialSnapshot now2 rand (some (persistSnapshot now s d)) pool = some (s, d)) ∧
    (∀ (now : Int) (rand : Nat → Nat) (j : JValue) (pool : List Question),
      (∀ v : Int, jGet j "version".toList = some (.jnum v) → v ≠ STORAGE_VERSION) →
      gameInitial now rand (some j) pool
        = (createDefaultState, createDefaultDeck rand pool.length)) := by
  constructor
  · intro now now2 rand s d pool hs hd
    exact loadInitialSnapshot_roundtrip now now2 rand s d pool hs hd
  · intro now rand j pool hv
    exact gameInitial_version_mismatch now rand j pool hv

theorem C8_persistence_roundtrip_witness :
    (WFState exC8s exPool ∧ WFDeck exC8d exPool.length ∧
      loadInitialSnapshot 777 (fun _ => 0) (some (persistSnapshot 123 exC8s exC8d)) exPool
        = some (exC8s, exC8d)) ∧
    ((∀ v : Int, jGet exC8badJ "version".toList = some (.jnum v) → v ≠ STORAGE_VERSION) ∧
      gameInitial 5 (fun _ => 0) (some exC8badJ) exPool
        = (createDefaultState, createDefaultDeck (fun _ => 0) exPool.length)) := by
  have hwfs : WFState exC8s exPool := by
    refine ⟨by decide, by decide, by decide, ?_, ?_, ?_, ?_, by decide, ?_⟩
    · intro w hw
      injection hw with h
      omega
    · intro t ht
      injection ht with h
      omega
    · intro q hq
      injection hq with h
      rw [← h]
      decide
    · intro r hr
      injection hr with h
      refine ⟨exQ1, rfl, ?_, ?_, ?_, ?_⟩ <;> rw [← h] <;> decide
    · intro e he
      rw [show exC8s.history = [exH1] from rfl, List.mem_singleton] at he
      subst he
      refine ⟨by decide, by decide, by decide, ?_⟩
      intro w hw
      injection hw with h
      omega
  have hwfd : WFDeck exC8d exPool.length := ⟨by decide, by decide⟩
  have hv : ∀ v : Int, jGet exC8badJ "version".toList = some (.jnum v) →
      v ≠ STORAGE_VERSION := by
    intro v hveq
    have h2 : JValue.jnum 2 = JValue.jnum v := by
      have : jGet exC8badJ "version".toList = some (.jnum 2) := rfl
      injection (this.symm.trans hveq)
    injection h2 with h2'
    rw [← h2']
    decide
  exact ⟨⟨hwfs, hwfd,
      C8_persistence_roundtrip.1 123 777 (fun _ => 0) exC8s exC8d exPool hwfs hwfd⟩,
    ⟨hv, C8_persistence_roundtrip.2 5 (fun _ => 0) exC8badJ exPool hv⟩⟩

end FamilyFeud

